import Mathlib

/-!
# go-universal/i18n: translation resolution engine

A shallow embedding of `message.go`, `utils.go`, `localization.go` and
`translator.go`, followed by theorems about plural resolution, placeholder
substitution, catalog lookup and default-locale fallback.

Conventions of the embedding:

* Go `string` is `String`; substring search and replacement work on the list of
  code points (UTF-8 is self-synchronising, so this agrees with the byte-wise
  search of package `strings` on valid UTF-8).
* Go `int` counts are `Int`; the code only compares them with constants.
* A `map[string]any` is the list of its entries in the order in which the
  `range` loop visits them; a call that ranges over the map twice (the fallback
  of `Translate` and `Plural`) visits it in the same order both times.
* A map that is only indexed (`locales`, `messages`) is a function to `Option`.
* A `*localization` is `Option localization`, `none` being the nil pointer; a
  nil dereference makes the operation return `none`.
* External capabilities (locale aware number printing, JSON validation and
  parsing, the file system) are the fields of `Env`.
-/

namespace I18n

/-! ## External types -/

/-- Language tag of `golang.org/x/text/language`, identified by its BCP 47 form. -/
structure Tag where
  bcp47 : String
  deriving DecidableEq, Repr

/-- Substitution value of static type `any`, by the cases `toString` tells apart. -/
inductive Value where
  /-- the nil interface value -/
  | null : Value
  /-- a Go `string` -/
  | str (s : String) : Value
  /-- a non-pointer value implementing `fmt.Stringer`; `text` is what `String()` returns -/
  | stringer (text : String) : Value
  /-- a value of one of the ten integer types -/
  | int (n : Int) : Value
  /-- a `float32` or `float64`, by its IEEE 754 bit pattern -/
  | float (bits : Nat) : Value
  /-- a pointer; `none` is a nil pointer, `some v` points to `v` -/
  | ptr (target : Option Value) : Value
  /-- any other value, named by an identifier of the caller -/
  | other (id : Nat) : Value

/-- Parsed JSON document, the tree behind a `gjson.Result`. -/
inductive Json where
  | null : Json
  | bool (b : Bool) : Json
  | number (raw : String) : Json
  | string (s : String) : Json
  | array (items : List Json) : Json
  | object (members : List (String × Json)) : Json

/-- The type `gjson.Result`: `none` is the zero Result of a path that matched nothing. -/
structure Result where
  node : Option Json

/-- Raw content handed to `load` (`[]byte`). -/
abbrev Bytes := String

/-- Capabilities of the libraries and of the operating system that the package calls. -/
structure Env where
  /-- the call `message.NewPrinter(l).Sprintf("%d", v)` -/
  sprintfD : Tag → Int → String
  /-- the call `message.NewPrinter(l).Sprintf("%.2f", v)`, on the bit pattern -/
  sprintfF : Tag → Nat → String
  /-- the call `fmt.Sprintf("%v", v)` for values that reach the default case -/
  sprintV : Value → String
  /-- the function `gjson.ValidBytes` -/
  validBytes : Bytes → Bool
  /-- the function `gjson.ParseBytes` -/
  parseBytes : Bytes → Result
  /-- the function `os.ReadFile`: the content, or the error -/
  readFile : String → Except String Bytes

/-! ## Package `strings` -/

/-- Scan of `strings.ReplaceAll` for a non-empty `old`: `skip` counts the characters of a
match that are still to be passed over. -/
def replaceScan (old new : List Char) : Nat → List Char → List Char
  | _, [] => []
  | skip + 1, _ :: cs => replaceScan old new skip cs
  | 0, c :: cs =>
    if old.isPrefixOf (c :: cs) then new ++ replaceScan old new (old.length - 1) cs
    else c :: replaceScan old new 0 cs

/-- Replacement of `strings.ReplaceAll` for an empty `old`: `new` goes before every
character and after the last one. -/
def replaceEmpty (new : List Char) : List Char → List Char
  | [] => new
  | c :: cs => new ++ c :: replaceEmpty new cs

/-- The function `strings.ReplaceAll`: every non-overlapping occurrence of `old`, found
from the left, is replaced by `new`. -/
def replaceAll (s old new : String) : String :=
  if old.data = [] then ⟨replaceEmpty new.data s.data⟩
  else ⟨replaceScan old.data new.data 0 s.data⟩

/-- The predicate `unicode.IsSpace`. -/
def isSpace (c : Char) : Bool :=
  let n := c.toNat
  (9 ≤ n && n ≤ 13) || n = 32 || n = 0x85 || n = 0xA0 || n = 0x1680 ||
  (0x2000 ≤ n && n ≤ 0x200A) || n = 0x2028 || n = 0x2029 || n = 0x202F ||
  n = 0x205F || n = 0x3000

/-- The function `strings.TrimSpace`: leading and trailing white space removed. -/
def trimSpace (s : String) : String :=
  ⟨((s.data.dropWhile isSpace).reverse.dropWhile isSpace).reverse⟩

/-! ## message.go -/

/-- Message with its plural forms. -/
structure pluralMessage where
  zero : String := ""
  one : String := ""
  two : String := ""
  few : String := ""
  many : String := ""
  other : String := ""
  deriving DecidableEq, Repr

/-- A `PluralOption` as the package lets a caller build one: the result of `PluralZero`,
`PluralOne`, `PluralTwo`, `PluralFew` or `PluralMany` (the fields of `pluralMessage`
are unexported, so no other setter can be written outside the package). The nil function
value, which `newMessage` would call, is left out. -/
inductive PluralOption where
  | PluralZero (msg : String) : PluralOption
  | PluralOne (msg : String) : PluralOption
  | PluralTwo (msg : String) : PluralOption
  | PluralFew (msg : String) : PluralOption
  | PluralMany (msg : String) : PluralOption
  deriving DecidableEq, Repr

/-- Running an option on a message. -/
def PluralOption.apply : PluralOption → pluralMessage → pluralMessage
  | PluralZero msg, m => { m with zero := msg }
  | PluralOne msg, m => { m with one := msg }
  | PluralTwo msg, m => { m with two := msg }
  | PluralFew msg, m => { m with few := msg }
  | PluralMany msg, m => { m with many := msg }

/-- The method `pluralMessage.resolve`. -/
def pluralMessage.resolve (m : pluralMessage) (count : Int) : String :=
  if count = 0 then m.zero
  else if count = 1 then m.one
  else if count = 2 then m.two
  else if count > 2 ∧ count ≤ 10 then m.few
  else if count > 10 then m.many
  else m.other

/-! ## utils.go -/

/-- The type switch of `toString`, on the value left after the pointer step. A pointer
that is still there, and any value of no listed type, is printed by `%v`; so is the nil
interface value, for which `%v` gives `<nil>`. -/
def toStringSwitch (E : Env) (l : Tag) : Value → String
  | Value.str s => s
  | Value.stringer text => text
  | Value.int n => E.sprintfD l n
  | Value.float bits => E.sprintfF l bits
  | Value.null => "<nil>"
  | v => E.sprintV v

/-- The function `toString`: a nil pointer gives the empty string, a non-nil pointer is
dereferenced once, then the type switch decides. -/
def toString (E : Env) (l : Tag) (v : Value) : String :=
  match v with
  | Value.ptr none => ""
  | Value.ptr (some w) => toStringSwitch E l w
  | w => toStringSwitch E l w

/-- The placeholder of a key: the key between braces. -/
def placeholder (k : String) : String := "\x7b" ++ k ++ "\x7d"

/-- The loop `for k, v := range values` with its `strings.ReplaceAll` body, shared by
`pluralMessage.translate` and `translateJson`. -/
def replacePlaceholders (E : Env) (locale : Tag) (values : List (String × Value))
    (message : String) : String :=
  values.foldl (fun msg kv => replaceAll msg (placeholder kv.1) (toString E locale kv.2))
    message

/-- The method `pluralMessage.translate`. -/
def pluralMessage.translate (E : Env) (m : pluralMessage) (locale : Tag) (count : Int)
    (values : List (String × Value)) : String :=
  let message := m.resolve count
  if message = "" then ""
  else replacePlaceholders E locale values message

/-- The function `newMessage`. -/
def newMessage (defaultMessage : String) (options : List PluralOption) : pluralMessage :=
  options.foldl (fun m opt => opt.apply m) { other := defaultMessage }

/-! ### The part of `gjson` that the package uses

Paths are sequences of member names (or array indices) separated by dots; the wildcard,
query and modifier syntax of `gjson` paths is not part of the model. -/

/-- Components of a dotted path. -/
def splitPath : List Char → List (List Char)
  | [] => [[]]
  | c :: cs =>
    match splitPath cs with
    | [] => [[c]]
    | p :: ps => if c = '.' then [] :: p :: ps else (c :: p) :: ps

/-- Decimal value of a non-empty run of digits. -/
def parseUint (cs : List Char) : Option Nat :=
  if cs = [] then none
  else cs.foldl (fun acc c =>
    match acc with
    | none => none
    | some n => if c.isDigit then some (10 * n + (c.toNat - 48)) else none) (some 0)

/-- One step of a path: the first member of an object with that name, or the element of
an array at that index. -/
def Json.child (j : Json) (part : List Char) : Option Json :=
  match j with
  | Json.object members => members.lookup (String.mk part)
  | Json.array items =>
    match parseUint part with
    | some i => items.get? i
    | none => none
  | _ => none

/-- The method `Result.Get`. -/
def Result.Get (r : Result) (path : String) : Result :=
  ⟨(splitPath path.data).foldl (fun acc part => acc.bind (fun j => j.child part)) r.node⟩

/-- The method `Result.Exists`. -/
def Result.Exists (r : Result) : Bool := r.node.isSome

/-- The field `Result.Str`: the text of a JSON string, empty for every other value. -/
def Result.Str (r : Result) : String :=
  match r.node with
  | some (Json.string s) => s
  | _ => ""

/-- The function `translateJson`. -/
def translateJson (E : Env) (locale : Tag) (json : Result) (count : Int)
    (values : List (String × Value)) : String :=
  let msg :=
    if count = 0 then (json.Get "zero").Str
    else if count = 1 then (json.Get "one").Str
    else if count = 2 then (json.Get "two").Str
    else if count > 2 ∧ count ≤ 10 then (json.Get "few").Str
    else (json.Get "many").Str
  let msg :=
    if msg = "" then
      let msg := (json.Get "other").Str
      if msg = "" then json.Str else msg
    else msg
  replacePlaceholders E locale values msg

/-! ## localization.go -/

/-- Localization context: a language tag, the parsed JSON files and the custom messages. -/
structure localization where
  tag : Tag
  files : List Result
  messages : String → Option pluralMessage

/-- The function `newLocalization`. -/
def newLocalization (tag : Tag) : localization :=
  { tag := tag, files := [], messages := fun _ => none }

/-- The method `localization.load`. -/
def localization.load (E : Env) (l : localization) (content : Bytes) : localization :=
  if E.validBytes content then { l with files := l.files ++ [E.parseBytes content] }
  else l

/-- The method `localization.addMessage`. -/
def localization.addMessage (l : localization) (key : String) (message : pluralMessage) :
    localization :=
  { l with messages := fun k => if k = key then some message else l.messages k }

/-- The loop over `l.files` of `localization.translate`. -/
def searchFiles (E : Env) (tag : Tag) (key : String) (count : Int)
    (values : List (String × Value)) : List Result → String
  | [] => ""
  | file :: rest =>
    let value := file.Get key
    if value.Exists then translateJson E tag value count values
    else searchFiles E tag key count values rest

/-- The method `localization.translate`. -/
def localization.translate (E : Env) (l : localization) (key : String) (count : Int)
    (values : List (String × Value)) : String :=
  match l.messages key with
  | some message => message.translate E l.tag count values
  | none => searchFiles E l.tag key count values l.files

/-! ## translator.go -/

/-- The struct `translator` (the mutex is not modelled: every method runs under it). -/
structure translator where
  defaultLocale : String
  defaultTag : Tag
  locales : String → Option (Option localization)

/-- The function `NewTranslator`. -/
def NewTranslator (locale : String) (formatter : Tag) : translator :=
  { defaultLocale := locale
    defaultTag := formatter
    locales := fun k => if k = locale then some (some (newLocalization formatter)) else none }

/-- The assignment `t.locales[key] = value`. -/
def translator.store (t : translator) (key : String) (value : Option localization) :
    translator :=
  { t with locales := fun k => if k = key then some value else t.locales k }

/-- The expression `t.locales[key]`: the nil pointer for a key that is not in the map. -/
def translator.catalog (t : translator) (key : String) : Option localization :=
  (t.locales key).join

/-- The method `translator.AddLocale`; `formatter` is `none` for a nil `*language.Tag`. -/
def translator.AddLocale (t : translator) (key : String) (formatter : Option Tag) :
    translator :=
  match formatter with
  | none => t.store key (some (newLocalization t.defaultTag))
  | some tag => t.store key (some (newLocalization tag))

/-- The method `translator.resolveLocale`. -/
def translator.resolveLocale (t : translator) (locale : String) : String × Bool :=
  let locale := if locale = "" then t.defaultLocale else locale
  match t.locales locale with
  | some (some _) => (locale, true)
  | _ => (locale, false)

/-- A method call `t.locales[key].f(...)` that changes the localization in place. Every
call site is behind the check of `resolveLocale`, so the pointer is not nil there. -/
def translator.update (t : translator) (key : String) (f : localization → localization) :
    translator :=
  match t.catalog key with
  | some l => t.store key (some (f l))
  | none => t

/-- The method `translator.LoadBytes`. -/
def translator.LoadBytes (E : Env) (t : translator) (locale : String)
    (contents : List Bytes) : translator :=
  match t.resolveLocale locale with
  | (_, false) => t
  | (localeKey, true) =>
    contents.foldl (fun t content => t.update localeKey (fun l => l.load E content)) t

/-- The loop over `files` of `translator.LoadFiles`, with its early return. -/
def loadFilesLoop (E : Env) (localeKey : String) :
    List String → translator → translator × Option String
  | [], t => (t, none)
  | file :: rest, t =>
    match E.readFile file with
    | Except.error err => (t, some err)
    | Except.ok content =>
      loadFilesLoop E localeKey rest (t.update localeKey (fun l => l.load E content))

/-- The method `translator.LoadFiles`: the state after the call and the returned error. -/
def translator.LoadFiles (E : Env) (t : translator) (locale : String)
    (files : List String) : translator × Option String :=
  match t.resolveLocale locale with
  | (_, false) => (t, none)
  | (localeKey, true) => loadFilesLoop E localeKey files t

/-- The method `translator.AddMessage`. -/
def translator.AddMessage (t : translator) (locale key message : String)
    (options : List PluralOption) : translator :=
  let message := trimSpace message
  match t.resolveLocale locale with
  | (localeKey, exists_) =>
    if !exists_ ∨ message = "" then t
    else t.update localeKey (fun l => l.addMessage key (newMessage message options))

/-- Locale resolution at the head of `Translate` and `Plural`: the resolved key, or `none`
on the path that returns the empty string. -/
def translator.lookupKey (t : translator) (locale : String) : Option String :=
  match t.resolveLocale locale with
  | (localeKey, true) => some localeKey
  | (_, false) =>
    match t.resolveLocale "" with
    | (localeKey, true) => some localeKey
    | (_, false) => none

/-- The method `translator.Plural`; `none` is a nil pointer dereference. -/
def translator.Plural (E : Env) (t : translator) (locale key : String) (count : Int)
    (values : List (String × Value)) : Option String :=
  match t.lookupKey locale with
  | none => some ""
  | some localeKey =>
    match t.catalog localeKey with
    | none => none
    | some l =>
      let result := l.translate E key count values
      if result = "" ∧ localeKey ≠ t.defaultLocale then
        match t.catalog t.defaultLocale with
        | none => none
        | some d => some (d.translate E key count values)
      else some result

/-- The method `translator.Translate`; `none` is a nil pointer dereference. -/
def translator.Translate (E : Env) (t : translator) (locale key : String)
    (values : List (String × Value)) : Option String :=
  match t.lookupKey locale with
  | none => some ""
  | some localeKey =>
    match t.catalog localeKey with
    | none => none
    | some l =>
      let result := l.translate E key (-1) values
      if result = "" ∧ localeKey ≠ t.defaultLocale then
        match t.catalog t.defaultLocale with
        | none => none
        | some d => some (d.translate E key (-1) values)
      else some result

/-- States of a translator that a program can reach: `NewTranslator` followed by calls of
the mutating methods (`Translate` and `Plural` leave the state as it is). -/
inductive Reachable (E : Env) : translator → Prop where
  | new (locale : String) (formatter : Tag) : Reachable E (NewTranslator locale formatter)
  | addLocale {t : translator} (key : String) (formatter : Option Tag) :
      Reachable E t → Reachable E (t.AddLocale key formatter)
  | loadBytes {t : translator} (locale : String) (contents : List Bytes) :
      Reachable E t → Reachable E (t.LoadBytes E locale contents)
  | loadFiles {t : translator} (locale : String) (files : List String) :
      Reachable E t → Reachable E (t.LoadFiles E locale files).1
  | addMessage {t : translator} (locale key message : String) (options : List PluralOption) :
      Reachable E t → Reachable E (t.AddMessage locale key message options)

/-- One call of a method of the translator, as the state before and the state after;
`Translate` and `Plural` only read. -/
inductive Step (E : Env) : translator → translator → Prop where
  | addLocale (t : translator) (key : String) (formatter : Option Tag) :
      Step E t (t.AddLocale key formatter)
  | loadBytes (t : translator) (locale : String) (contents : List Bytes) :
      Step E t (t.LoadBytes E locale contents)
  | loadFiles (t : translator) (locale : String) (files : List String) :
      Step E t (t.LoadFiles E locale files).1
  | addMessage (t : translator) (locale key message : String) (options : List PluralOption) :
      Step E t (t.AddMessage locale key message options)
  | translate (t : translator) (locale key : String) (values : List (String × Value)) :
      Step E t t
  | plural (t : translator) (locale key : String) (count : Int)
      (values : List (String × Value)) : Step E t t

/-! ## Texts made of literal segments and placeholders

The vocabulary of the statements about the replacement loop: a text as a sequence of
literal pieces and placeholders, and the substitution that fills the placeholders. -/

/-- A piece of a message text: literal text, or a placeholder with its name. -/
inductive Segment where
  | lit (text : List Char) : Segment
  | hole (name : List Char) : Segment
  deriving DecidableEq, Repr

/-- Neither brace occurs in the characters. -/
def braceFree (cs : List Char) : Bool :=
  cs.all (fun c => c != '\x7b' && c != '\x7d')

/-- The characters of a segment: a placeholder is its name between braces. -/
def Segment.render : Segment → List Char
  | Segment.lit text => text
  | Segment.hole name => '\x7b' :: name ++ ['\x7d']

/-- Literal text and placeholder names are free of braces. -/
def Segment.wellFormed : Segment → Bool
  | Segment.lit text => braceFree text
  | Segment.hole name => braceFree name

/-- The characters of a text given by its segments. -/
def renderSegments : List Segment → List Char
  | [] => []
  | s :: rest => s.render ++ renderSegments rest

/-- Simultaneous substitution of one key: every placeholder named `k` becomes the
literal `v`. -/
def fillSegments (k v : List Char) : List Segment → List Segment
  | [] => []
  | Segment.hole name :: rest =>
    (if name = k then Segment.lit v else Segment.hole name) :: fillSegments k v rest
  | Segment.lit text :: rest => Segment.lit text :: fillSegments k v rest

/-- The segments after the loop over the values: each key in turn is filled in. -/
def fillAll (E : Env) (locale : Tag) (values : List (String × Value))
    (segs : List Segment) : List Segment :=
  values.foldl (fun segs kv => fillSegments kv.1.data (toString E locale kv.2).data segs) segs

/-- The formatted value that the values map gives to a placeholder name: that of the
first entry whose key is the name. -/
def formattedValue (E : Env) (locale : Tag) :
    List (String × Value) → List Char → Option (List Char)
  | [], _ => none
  | kv :: rest, name =>
    if kv.1.data = name then some (toString E locale kv.2).data
    else formattedValue E locale rest name

/-- Simultaneous substitution: every placeholder whose name is a key becomes the
formatted value of the key, every other segment stays. -/
def substituteAll (E : Env) (locale : Tag) (values : List (String × Value)) :
    List Segment → List Segment
  | [] => []
  | Segment.hole name :: rest =>
    (match formattedValue E locale values name with
      | some v => Segment.lit v
      | none => Segment.hole name) :: substituteAll E locale values rest
  | Segment.lit text :: rest => Segment.lit text :: substituteAll E locale values rest

/-! ## Option lists -/

/-- Selector of `PluralZero`: the message of an option that sets `zero`. -/
def PluralOption.zero? : PluralOption → Option String
  | PluralOption.PluralZero msg => some msg
  | _ => none

/-- Selector of `PluralOne`. -/
def PluralOption.one? : PluralOption → Option String
  | PluralOption.PluralOne msg => some msg
  | _ => none

/-- Selector of `PluralTwo`. -/
def PluralOption.two? : PluralOption → Option String
  | PluralOption.PluralTwo msg => some msg
  | _ => none

/-- Selector of `PluralFew`. -/
def PluralOption.few? : PluralOption → Option String
  | PluralOption.PluralFew msg => some msg
  | _ => none

/-- Selector of `PluralMany`. -/
def PluralOption.many? : PluralOption → Option String
  | PluralOption.PluralMany msg => some msg
  | _ => none

/-- The message of the last option of the list that a selector accepts, the empty string
when it accepts none. -/
def lastMessage (sel : PluralOption → Option String) (options : List PluralOption) : String :=
  ((options.filterMap sel).getLast?).getD ""

/-! ## Sample data -/

/-- The English document of `translator_test.go`. -/
def enDocument : Json :=
  Json.object
    [("welcome", Json.string "Hello {name}, Welcome!"),
     ("notification", Json.object
       [("zero", Json.string "No new message"),
        ("one", Json.string "You have a new message"),
        ("other", Json.string "You have {count} new messages")])]

/-- The Persian document of `translator_test.go`. -/
def faDocument : Json :=
  Json.object
    [("welcome", Json.string "سلام {name}, خوش آمدید!"),
     ("notification", Json.object
       [("zero", Json.string "پیام جدیدی ندارید"),
        ("one", Json.string "یک پیام جدید دارید"),
        ("other", Json.string "{count} پیام جدید دارید")])]

/-- A document node with all six plural forms. -/
def sixForms : Json :=
  Json.object
    [("zero", Json.string "Z"), ("one", Json.string "O"), ("two", Json.string "T"),
     ("few", Json.string "F"), ("many", Json.string "M"), ("other", Json.string "X")]

/-- A document node with the form `many` only. -/
def manyOnly : Json :=
  Json.object [("many", Json.string "M")]

/-- A document whose key `items` has all six plural forms. -/
def formsDocument : Json :=
  Json.object [("items", sixForms)]

/-- Environment of the examples. Integers print in plain decimal (what the `x/text`
printer gives for English below one thousand). The contents `en`, `fa` and `forms` stand
for the bytes of `enDocument`, `faDocument` and `formsDocument` and parse to them; no
other content is valid. The only readable file is `en.json`, holding `en`. -/
def sampleEnv : Env where
  sprintfD := fun _ n => ToString.toString n
  sprintfF := fun _ _ => "0.00"
  sprintV := fun _ => "?"
  validBytes := fun content => content = "en" || content = "fa" || content = "forms"
  parseBytes := fun content =>
    if content = "en" then ⟨some enDocument⟩
    else if content = "fa" then ⟨some faDocument⟩
    else if content = "forms" then ⟨some formsDocument⟩
    else ⟨none⟩
  readFile := fun file =>
    if file = "en.json" then Except.ok "en"
    else Except.error ("open " ++ file ++ ": no such file or directory")

/-- The tag `language.English`. -/
def english : Tag := ⟨"en"⟩

/-- The tag `language.Persian`. -/
def persian : Tag := ⟨"fa"⟩

/-- The translator that `TestTranslator` sets up. -/
def testTranslator : translator :=
  (((NewTranslator "en" english).AddLocale "fa" (some persian)).LoadBytes sampleEnv "en"
    ["en"]).LoadBytes sampleEnv "fa" ["fa"]

/-- The translator of the test after `AddMessage("fa", "welcome", "Hi")`. -/
def shadowTranslator : translator :=
  testTranslator.AddMessage "fa" "welcome" "Hi" []

/-- The catalog of `fa` in `shadowTranslator`. -/
def shadowCatalog : localization :=
  ((newLocalization persian).load sampleEnv "fa").addMessage "welcome"
    (newMessage (trimSpace "Hi") [])

/-- A translator whose default catalog has loaded `formsDocument`. -/
def formsTranslator : translator :=
  (NewTranslator "en" english).LoadBytes sampleEnv "en" ["forms"]

/-- The notification node of the English test document. -/
def notificationNode : Result :=
  (Result.mk (some enDocument)).Get "notification"

/-- The welcome node of the English test document. -/
def welcomeNode : Result :=
  (Result.mk (some enDocument)).Get "welcome"

/-- Two documents for `k`: the first holds a number, the second a text. -/
def twoDocuments : List Result :=
  [⟨some (Json.object [("k", Json.number "5")])⟩,
   ⟨some (Json.object [("j", Json.string "other key")])⟩,
   ⟨some (Json.object [("k", Json.string "text"), ("j", Json.string "late")])⟩]

/-- A message text with three placeholders. -/
def inboxText : List Segment :=
  [Segment.lit "Hello ".data, Segment.hole "name".data, Segment.lit ", ".data,
   Segment.hole "count".data, Segment.lit " new messages from ".data,
   Segment.hole "sender".data]

/-! # Theorems -/

/-! ## Registry lemmas -/

theorem catalog_store (t : translator) (key k : String) (v : Option localization) :
    (t.store key v).catalog k = if k = key then v else t.catalog k := by
  unfold translator.store translator.catalog
  by_cases h : k = key <;> simp [h]

theorem catalog_update (t : translator) (key k : String) (f : localization → localization) :
    (t.update key f).catalog k = if k = key then (t.catalog key).map f else t.catalog k := by
  unfold translator.update
  cases h : t.catalog key with
  | none => by_cases hk : k = key <;> simp [hk, h]
  | some l => simp [catalog_store]

theorem defaultLocale_update (t : translator) (key : String) (f : localization → localization) :
    (t.update key f).defaultLocale = t.defaultLocale := by
  unfold translator.update translator.store
  cases t.catalog key <;> rfl

theorem defaultTag_update (t : translator) (key : String) (f : localization → localization) :
    (t.update key f).defaultTag = t.defaultTag := by
  unfold translator.update translator.store
  cases t.catalog key <;> rfl

theorem resolveLocale_eq (t : translator) (locale : String) :
    t.resolveLocale locale =
      (if locale = "" then t.defaultLocale else locale,
       (t.catalog (if locale = "" then t.defaultLocale else locale)).isSome) := by
  unfold translator.resolveLocale translator.catalog
  generalize (if locale = "" then t.defaultLocale else locale) = key
  cases h : t.locales key with
  | none => simp [h]
  | some o => cases o <;> simp [h]

/-- Catalogs after a run of in-place changes at one key. -/
theorem catalog_foldl_update {α : Type} (g : α → localization → localization) (key k : String)
    (xs : List α) (t : translator) :
    (xs.foldl (fun t x => t.update key (g x)) t).catalog k =
      if k = key then (t.catalog key).map (fun l => xs.foldl (fun l x => g x l) l)
      else t.catalog k := by
  induction xs generalizing t with
  | nil => by_cases h : k = key <;> simp [h]
  | cons x xs ih =>
    simp only [List.foldl_cons, ih, catalog_update]
    by_cases h : k = key
    · simp only [h, if_true, Option.map_map]
      rfl
    · simp [h]

theorem defaultLocale_foldl_update {α : Type} (g : α → localization → localization)
    (key : String) (xs : List α) (t : translator) :
    (xs.foldl (fun t x => t.update key (g x)) t).defaultLocale = t.defaultLocale := by
  induction xs generalizing t with
  | nil => rfl
  | cons x xs ih => simp only [List.foldl_cons, ih, defaultLocale_update]

theorem catalog_LoadBytes (E : Env) (t : translator) (locale k : String)
    (contents : List Bytes) :
    (t.LoadBytes E locale contents).catalog k =
      if k = (if locale = "" then t.defaultLocale else locale) then
        (t.catalog k).map (fun l => contents.foldl (fun l c => l.load E c) l)
      else t.catalog k := by
  unfold translator.LoadBytes
  rw [resolveLocale_eq]
  cases h : (t.catalog (if locale = "" then t.defaultLocale else locale)).isSome with
  | false =>
    simp only []
    by_cases hk : k = (if locale = "" then t.defaultLocale else locale)
    · rw [if_pos hk]
      rw [← hk] at h
      cases h2 : t.catalog k with
      | none => rfl
      | some l => rw [h2] at h; cases h
    · rw [if_neg hk]
  | true =>
    simp only []
    rw [catalog_foldl_update]
    by_cases hk : k = (if locale = "" then t.defaultLocale else locale)
    · rw [if_pos hk, if_pos hk, hk]
    · rw [if_neg hk, if_neg hk]

theorem defaultLocale_LoadBytes (E : Env) (t : translator) (locale : String)
    (contents : List Bytes) :
    (t.LoadBytes E locale contents).defaultLocale = t.defaultLocale := by
  unfold translator.LoadBytes
  rw [resolveLocale_eq]
  cases (t.catalog (if locale = "" then t.defaultLocale else locale)).isSome with
  | false => rfl
  | true => exact defaultLocale_foldl_update _ _ _ _

theorem defaultLocale_loadFilesLoop (E : Env) (key : String) (files : List String)
    (t : translator) : (loadFilesLoop E key files t).1.defaultLocale = t.defaultLocale := by
  induction files generalizing t with
  | nil => rfl
  | cons file rest ih =>
    unfold loadFilesLoop
    cases E.readFile file with
    | error err => rfl
    | ok content => simp only [ih, defaultLocale_update]

/-- The loop of `LoadFiles` changes only the catalog it loads into, and only its files. -/
theorem catalog_loadFilesLoop (E : Env) (key k : String) (files : List String)
    (t : translator) :
    ∃ f : localization → localization, (∀ l, (f l).messages = l.messages ∧ (f l).tag = l.tag) ∧
      (loadFilesLoop E key files t).1.catalog k =
        if k = key then (t.catalog key).map f else t.catalog k := by
  induction files generalizing t with
  | nil =>
    refine ⟨id, fun l => ⟨rfl, rfl⟩, ?_⟩
    by_cases h : k = key <;> simp [loadFilesLoop, h]
  | cons file rest ih =>
    unfold loadFilesLoop
    cases E.readFile file with
    | error err =>
      refine ⟨id, fun l => ⟨rfl, rfl⟩, ?_⟩
      by_cases h : k = key <;> simp [h]
    | ok content =>
      obtain ⟨f, hf, hc⟩ := ih (t.update key (fun l => l.load E content))
      refine ⟨fun l => f (l.load E content), fun l => ?_, ?_⟩
      · refine ⟨(hf _).1.trans ?_, (hf _).2.trans ?_⟩ <;>
          (unfold localization.load; split <;> rfl)
      · simp only [hc, catalog_update]
        by_cases h : k = key
        · simp only [h, if_true, Option.map_map]; rfl
        · simp only [h, if_false]

theorem defaultLocale_LoadFiles (E : Env) (t : translator) (locale : String)
    (files : List String) :
    (t.LoadFiles E locale files).1.defaultLocale = t.defaultLocale := by
  unfold translator.LoadFiles
  rw [resolveLocale_eq]
  cases (t.catalog (if locale = "" then t.defaultLocale else locale)).isSome with
  | false => rfl
  | true => exact defaultLocale_loadFilesLoop _ _ _ _

theorem catalog_LoadFiles (E : Env) (t : translator) (locale k : String)
    (files : List String) :
    ∃ f : localization → localization, (∀ l, (f l).messages = l.messages ∧ (f l).tag = l.tag) ∧
      (t.LoadFiles E locale files).1.catalog k =
        if k = (if locale = "" then t.defaultLocale else locale) then (t.catalog k).map f
        else t.catalog k := by
  unfold translator.LoadFiles
  rw [resolveLocale_eq]
  cases (t.catalog (if locale = "" then t.defaultLocale else locale)).isSome with
  | false =>
    refine ⟨id, fun l => ⟨rfl, rfl⟩, ?_⟩
    simp
  | true =>
    obtain ⟨f, hf, hc⟩ := catalog_loadFilesLoop E
      (if locale = "" then t.defaultLocale else locale) k files t
    refine ⟨f, hf, ?_⟩
    simp only [hc]
    by_cases hk : k = (if locale = "" then t.defaultLocale else locale)
    · rw [if_pos hk, if_pos hk, hk]
    · rw [if_neg hk, if_neg hk]

/-- Effect of `AddMessage` on the catalogs. -/
theorem catalog_AddMessage (t : translator) (locale key message k : String)
    (options : List PluralOption) :
    (t.AddMessage locale key message options).catalog k =
      if k = (if locale = "" then t.defaultLocale else locale) ∧ trimSpace message ≠ "" then
        (t.catalog k).map (fun l => l.addMessage key (newMessage (trimSpace message) options))
      else t.catalog k := by
  unfold translator.AddMessage
  rw [resolveLocale_eq]
  simp only []
  by_cases hm : trimSpace message = ""
  · simp [hm]
  · cases h : (t.catalog (if locale = "" then t.defaultLocale else locale)).isSome with
    | false =>
      simp only [hm, Bool.not_false, true_or, if_true, ne_eq, not_false_eq_true, and_true]
      by_cases hk : k = (if locale = "" then t.defaultLocale else locale)
      · rw [if_pos hk]
        rw [← hk] at h
        cases h2 : t.catalog k with
        | none => rfl
        | some l => rw [h2] at h; cases h
      · rw [if_neg hk]
    | true =>
      simp only [hm, Bool.not_true, Bool.false_eq_true, or_self, if_false, ne_eq,
        not_false_eq_true, and_true, catalog_update]
      by_cases hk : k = (if locale = "" then t.defaultLocale else locale)
      · rw [if_pos hk, if_pos hk, hk]
      · rw [if_neg hk, if_neg hk]

theorem defaultLocale_AddMessage (t : translator) (locale key message : String)
    (options : List PluralOption) :
    (t.AddMessage locale key message options).defaultLocale = t.defaultLocale := by
  unfold translator.AddMessage
  rw [resolveLocale_eq]
  simp only []
  generalize (if locale = "" then t.defaultLocale else locale) = k
  by_cases h : (!(t.catalog k).isSome) = true ∨ trimSpace message = ""
  · rw [if_pos h]
  · rw [if_neg h]; exact defaultLocale_update _ _ _

theorem catalog_AddLocale (t : translator) (key k : String) (formatter : Option Tag) :
    (t.AddLocale key formatter).catalog k =
      if k = key then some (newLocalization (formatter.getD t.defaultTag)) else t.catalog k := by
  unfold translator.AddLocale
  cases formatter <;> simp [catalog_store]

theorem defaultLocale_AddLocale (t : translator) (key : String) (formatter : Option Tag) :
    (t.AddLocale key formatter).defaultLocale = t.defaultLocale := by
  unfold translator.AddLocale
  cases formatter <;> rfl

theorem catalog_NewTranslator (locale k : String) (formatter : Tag) :
    (NewTranslator locale formatter).catalog k =
      if k = locale then some (newLocalization formatter) else none := by
  unfold NewTranslator translator.catalog
  by_cases h : k = locale <;> simp [h]

theorem exists_some_ite {α : Type} (c : Prop) [Decidable c] (f : α → α) (d : α) :
    ∃ x, (if c then Option.map f (some d) else some d) = some x := by
  by_cases h : c
  · exact ⟨f d, by rw [if_pos h]; rfl⟩
  · exact ⟨d, by rw [if_neg h]⟩

/-- Invariant: the default locale of a reachable translator is registered. -/
theorem Reachable.default_registered {E : Env} {t : translator} (h : Reachable E t) :
    ∃ d, t.catalog t.defaultLocale = some d := by
  induction h with
  | new locale formatter =>
    exact ⟨newLocalization formatter, by rw [catalog_NewTranslator]; simp [NewTranslator]⟩
  | @addLocale t key formatter _ ih =>
    obtain ⟨d, hd⟩ := ih
    rw [defaultLocale_AddLocale, catalog_AddLocale]
    by_cases hk : t.defaultLocale = key
    · exact ⟨_, by rw [if_pos hk]⟩
    · exact ⟨d, by rw [if_neg hk, hd]⟩
  | @loadBytes t locale contents _ ih =>
    obtain ⟨d, hd⟩ := ih
    rw [defaultLocale_LoadBytes, catalog_LoadBytes, hd]
    exact exists_some_ite _ _ _
  | @loadFiles t locale files _ ih =>
    obtain ⟨d, hd⟩ := ih
    obtain ⟨f, _, hc⟩ := catalog_LoadFiles E t locale t.defaultLocale files
    rw [defaultLocale_LoadFiles, hc, hd]
    exact exists_some_ite _ _ _
  | @addMessage t locale key message options _ ih =>
    obtain ⟨d, hd⟩ := ih
    rw [defaultLocale_AddMessage, catalog_AddMessage, hd]
    exact exists_some_ite _ _ _

/-- Invariant: when the default locale is not the empty key, a catalog registered under
the empty key holds no custom message (every method resolves the empty key to the
default locale). -/
theorem Reachable.empty_key_messages {E : Env} {t : translator} (h : Reachable E t)
    (hD : t.defaultLocale ≠ "") (l : localization) (hl : t.catalog "" = some l)
    (k : String) : l.messages k = none := by
  induction h generalizing l with
  | new locale formatter =>
    rw [catalog_NewTranslator] at hl
    have : ¬ "" = locale := fun e => hD e.symm
    rw [if_neg this] at hl
    cases hl
  | @addLocale t key formatter _ ih =>
    rw [defaultLocale_AddLocale] at hD
    rw [catalog_AddLocale] at hl
    by_cases hk : "" = key
    · rw [if_pos hk] at hl
      cases hl
      rfl
    · rw [if_neg hk] at hl
      exact ih hD l hl
  | @loadBytes t locale contents _ ih =>
    rw [defaultLocale_LoadBytes] at hD
    rw [catalog_LoadBytes] at hl
    have hne : ¬ "" = (if locale = "" then t.defaultLocale else locale) := by
      by_cases hloc : locale = ""
      · rw [if_pos hloc]; exact fun e => hD e.symm
      · rw [if_neg hloc]; exact fun e => hloc e.symm
    rw [if_neg hne] at hl
    exact ih hD l hl
  | @loadFiles t locale files _ ih =>
    rw [defaultLocale_LoadFiles] at hD
    obtain ⟨f, _, hc⟩ := catalog_LoadFiles E t locale "" files
    rw [hc] at hl
    have hne : ¬ "" = (if locale = "" then t.defaultLocale else locale) := by
      by_cases hloc : locale = ""
      · rw [if_pos hloc]; exact fun e => hD e.symm
      · rw [if_neg hloc]; exact fun e => hloc e.symm
    rw [if_neg hne] at hl
    exact ih hD l hl
  | @addMessage t locale key message options _ ih =>
    rw [defaultLocale_AddMessage] at hD
    rw [catalog_AddMessage] at hl
    have hne : ¬ "" = (if locale = "" then t.defaultLocale else locale) := by
      by_cases hloc : locale = ""
      · rw [if_pos hloc]; exact fun e => hD e.symm
      · rw [if_neg hloc]; exact fun e => hloc e.symm
    rw [if_neg (fun h => hne h.1)] at hl
    exact ih hD l hl

/-- Locale resolution of `Translate` and `Plural` when the default locale is registered. -/
theorem lookupKey_eq (t : translator) (locale : String) (d : localization)
    (hd : t.catalog t.defaultLocale = some d) :
    t.lookupKey locale =
      some (if locale = "" ∨ (t.catalog locale).isNone then t.defaultLocale else locale) := by
  unfold translator.lookupKey
  rw [resolveLocale_eq, resolveLocale_eq]
  by_cases hloc : locale = ""
  · simp [hloc, hd]
  · cases h : t.catalog locale with
    | none => simp [hloc, h, hd]
    | some l => simp [hloc, h]

/-- The body of `Plural` once both catalogs are known. -/
theorem Plural_eq (E : Env) (t : translator) (locale key : String) (count : Int)
    (values : List (String × Value)) (l d : localization)
    (hd : t.catalog t.defaultLocale = some d)
    (hl : t.catalog (if locale = "" ∨ (t.catalog locale).isNone then t.defaultLocale
      else locale) = some l) :
    t.Plural E locale key count values =
      some (if l.translate E key count values = "" ∧
          (if locale = "" ∨ (t.catalog locale).isNone then t.defaultLocale else locale) ≠
            t.defaultLocale
        then d.translate E key count values else l.translate E key count values) := by
  unfold translator.Plural
  rw [lookupKey_eq t locale d hd]
  simp only [hl, hd]
  exact (apply_ite some _ _ _).symm

/-- The body of `Translate` once both catalogs are known. -/
theorem Translate_eq (E : Env) (t : translator) (locale key : String)
    (values : List (String × Value)) (l d : localization)
    (hd : t.catalog t.defaultLocale = some d)
    (hl : t.catalog (if locale = "" ∨ (t.catalog locale).isNone then t.defaultLocale
      else locale) = some l) :
    t.Translate E locale key values =
      some (if l.translate E key (-1) values = "" ∧
          (if locale = "" ∨ (t.catalog locale).isNone then t.defaultLocale else locale) ≠
            t.defaultLocale
        then d.translate E key (-1) values else l.translate E key (-1) values) := by
  unfold translator.Translate
  rw [lookupKey_eq t locale d hd]
  simp only [hl, hd]
  exact (apply_ite some _ _ _).symm

/-- The locale that `Translate` and `Plural` use is registered when the default is. -/
theorem used_locale_registered (t : translator) (locale : String) (d : localization)
    (hd : t.catalog t.defaultLocale = some d) :
    ∃ l, t.catalog (if locale = "" ∨ (t.catalog locale).isNone then t.defaultLocale
      else locale) = some l := by
  by_cases hloc : locale = ""
  · exact ⟨d, by simp [hloc, hd]⟩
  · cases h : t.catalog locale with
    | none => exact ⟨d, by simp [hd]⟩
    | some l => exact ⟨l, by simp [hloc, h]⟩

theorem testTranslator_reachable : Reachable sampleEnv testTranslator :=
  Reachable.loadBytes _ _ (Reachable.loadBytes _ _ (Reachable.addLocale _ _
    (Reachable.new _ _)))

/-! ## Messages -/

theorem apply_other (o : PluralOption) (m : pluralMessage) : (o.apply m).other = m.other := by
  cases o <;> rfl

theorem newMessage_other (defaultMessage : String) (options : List PluralOption) :
    (newMessage defaultMessage options).other = defaultMessage := by
  unfold newMessage
  suffices h : ∀ m : pluralMessage, (options.foldl (fun m opt => opt.apply m) m).other = m.other
    from h _
  induction options with
  | nil => intro m; rfl
  | cons o os ih => intro m; rw [List.foldl_cons, ih, apply_other]

theorem resolve_of_neg (m : pluralMessage) (count : Int) (h : count < 0) :
    m.resolve count = m.other := by
  unfold pluralMessage.resolve
  rw [if_neg (by omega), if_neg (by omega), if_neg (by omega), if_neg (by omega),
    if_neg (by omega)]

theorem translate_custom (E : Env) (l : localization) (key : String) (M : pluralMessage)
    (count : Int) (values : List (String × Value)) (h : l.messages key = some M) :
    l.translate E key count values = M.translate E l.tag count values := by
  unfold localization.translate
  rw [h]

theorem messages_addMessage_self (l : localization) (key : String) (M : pluralMessage) :
    (l.addMessage key M).messages key = some M := by
  simp [localization.addMessage]

theorem shadowTranslator_reachable : Reachable sampleEnv shadowTranslator :=
  Reachable.addMessage _ _ _ _ testTranslator_reachable

/-! ## Document nodes -/

/-- The text that `translateJson` takes: the child field its `switch` reads, then the two
steps of the fallback. -/
theorem translateJson_eq (E : Env) (locale : Tag) (json : Result) (count : Int)
    (values : List (String × Value)) :
    translateJson E locale json count values =
      replacePlaceholders E locale values
        (if (json.Get (if count = 0 then "zero" else if count = 1 then "one"
            else if count = 2 then "two" else if count > 2 ∧ count ≤ 10 then "few"
            else "many")).Str = "" then
          (if (json.Get "other").Str = "" then json.Str else (json.Get "other").Str)
         else (json.Get (if count = 0 then "zero" else if count = 1 then "one"
            else if count = 2 then "two" else if count > 2 ∧ count ≤ 10 then "few"
            else "many")).Str) := by
  unfold translateJson
  simp only [apply_ite (fun s => Result.Get json s), apply_ite Result.Str]

theorem Str_of_not_Exists (r : Result) (h : ¬ r.Exists = true) : r.Str = "" := by
  unfold Result.Exists at h
  unfold Result.Str
  cases hn : r.node with
  | none => rfl
  | some j => rw [hn] at h; exact absurd rfl h

/-- A node with a child reached by a one-component path is no string. -/
theorem Str_of_child_Exists (json : Result) (part : List Char)
    (h : (Result.mk (json.node.bind (fun j => j.child part))).Exists = true) :
    json.Str = "" := by
  unfold Result.Exists at h
  unfold Result.Str
  cases hn : json.node with
  | none => rfl
  | some j =>
    cases j with
    | string s => rw [hn] at h; cases h
    | _ => rfl

theorem Get_other (json : Result) :
    json.Get "other" = Result.mk (json.node.bind (fun j => j.child "other".data)) := rfl

/-- For the counts from 0 on, where the `switch` of `translateJson` reads the field that
the count policy of `resolve` selects: when that field is absent from the node, the text
is that of the field `other`, and the string value of the node itself when `other` is
absent too; the placeholders of the text are then replaced. -/
theorem translateJson_fallback_of_nonneg (E : Env) (locale : Tag) (json : Result)
    (count : Int) (values : List (String × Value)) (h0 : 0 ≤ count) (field : String)
    (hfield : field = if count = 0 then "zero" else if count = 1 then "one"
      else if count = 2 then "two" else if count > 2 ∧ count ≤ 10 then "few"
      else if count > 10 then "many" else "other")
    (h : (json.Get field).Exists = false) :
    ((json.Get "other").Exists = true →
      translateJson E locale json count values =
        replacePlaceholders E locale values (json.Get "other").Str) ∧
    ((json.Get "other").Exists = false →
      translateJson E locale json count values =
        replacePlaceholders E locale values json.Str) := by
  have hcode : (if count = 0 then "zero" else if count = 1 then "one"
      else if count = 2 then "two" else if count > 2 ∧ count ≤ 10 then "few"
      else "many") = field := by
    rw [hfield]
    by_cases c0 : count = 0
    · rw [if_pos c0, if_pos c0]
    rw [if_neg c0, if_neg c0]
    by_cases c1 : count = 1
    · rw [if_pos c1, if_pos c1]
    rw [if_neg c1, if_neg c1]
    by_cases c2 : count = 2
    · rw [if_pos c2, if_pos c2]
    rw [if_neg c2, if_neg c2]
    by_cases c3 : count > 2 ∧ count ≤ 10
    · rw [if_pos c3, if_pos c3]
    rw [if_neg c3, if_neg c3, if_pos (by omega)]
  have hsel : (json.Get field).Str = "" := Str_of_not_Exists _ (by rw [h]; decide)
  rw [translateJson_eq, hcode, hsel, if_pos rfl]
  constructor
  · intro ho
    by_cases hs : (json.Get "other").Str = ""
    · rw [if_pos hs, hs, Str_of_child_Exists json "other".data (by rw [← Get_other]; exact ho)]
    · rw [if_neg hs]
  · intro ho
    rw [if_pos (Str_of_not_Exists _ (by rw [ho]; decide))]

/-! ## The replacement loop on well formed texts -/

theorem braceFree_iff (cs : List Char) :
    braceFree cs = true ↔ '\x7b' ∉ cs ∧ '\x7d' ∉ cs := by
  unfold braceFree
  induction cs with
  | nil => simp
  | cons c cs ih =>
    rw [List.all_cons, Bool.and_eq_true, ih]
    simp only [List.mem_cons, not_or, Bool.and_eq_true, bne_iff_ne, ne_eq]
    constructor
    · rintro ⟨⟨h1, h2⟩, h3, h4⟩
      exact ⟨⟨fun e => h1 e.symm, h3⟩, fun e => h2 e.symm, h4⟩
    · rintro ⟨⟨h1, h3⟩, h2, h4⟩
      exact ⟨⟨fun e => h1 e.symm, fun e => h2 e.symm⟩, h3, h4⟩

/-- Passing over the rest of a match. -/
theorem replaceScan_skip (old new xs rest : List Char) :
    replaceScan old new xs.length (xs ++ rest) = replaceScan old new 0 rest := by
  induction xs with
  | nil => rfl
  | cons c cs ih => simpa [replaceScan] using ih

/-- Text without an opening brace is copied when the pattern starts with one. -/
theorem replaceScan_copy (k new xs rest : List Char) (h : '\x7b' ∉ xs) :
    replaceScan ('\x7b' :: k) new 0 (xs ++ rest) =
      xs ++ replaceScan ('\x7b' :: k) new 0 rest := by
  induction xs with
  | nil => rfl
  | cons c cs ih =>
    rw [List.mem_cons, not_or] at h
    have hp : ¬ ('\x7b' :: k).isPrefixOf (c :: (cs ++ rest)) = true := by
      rw [List.isPrefixOf_iff_prefix, List.cons_prefix_cons]
      exact fun x => h.1 x.1
    rw [List.cons_append, replaceScan, if_neg hp, ih h.2, List.cons_append]

theorem renderSegments_hole (name : List Char) (rest : List Segment) :
    renderSegments (Segment.hole name :: rest) =
      '\x7b' :: (name ++ '\x7d' :: renderSegments rest) := by
  simp [renderSegments, Segment.render]

theorem renderSegments_lit (text : List Char) (rest : List Segment) :
    renderSegments (Segment.lit text :: rest) = text ++ renderSegments rest := rfl

theorem fillSegments_hole (k v name : List Char) (rest : List Segment) :
    fillSegments k v (Segment.hole name :: rest) =
      (if name = k then Segment.lit v else Segment.hole name) :: fillSegments k v rest := rfl

theorem fillSegments_lit (k v text : List Char) (rest : List Segment) :
    fillSegments k v (Segment.lit text :: rest) = Segment.lit text :: fillSegments k v rest :=
  rfl

/-- A closed name is a prefix of a closed name only when the names are equal. -/
theorem closed_prefix_iff (k n rest : List Char) (hk : '\x7d' ∉ k) (hn : '\x7d' ∉ n) :
    k ++ ['\x7d'] <+: n ++ '\x7d' :: rest ↔ k = n := by
  induction k generalizing n with
  | nil =>
    cases n with
    | nil => simp
    | cons c n =>
      rw [List.mem_cons, not_or] at hn
      simp only [List.nil_append, List.cons_append, List.cons_prefix_cons]
      constructor
      · rintro ⟨e, _⟩; exact absurd e hn.1
      · intro e; cases e
  | cons a k ih =>
    rw [List.mem_cons, not_or] at hk
    cases n with
    | nil =>
      simp only [List.nil_append, List.cons_append, List.cons_prefix_cons]
      constructor
      · rintro ⟨e, _⟩; exact absurd e.symm hk.1
      · intro e; cases e
    | cons c n =>
      rw [List.mem_cons, not_or] at hn
      simp only [List.cons_append, List.cons_prefix_cons, ih n hk.2 hn.2, List.cons.injEq]

/-- One pass of `ReplaceAll` over a well formed text fills the placeholders of the key. -/
theorem replaceScan_renderSegments (k v : List Char) (segs : List Segment)
    (hk : braceFree k = true) (hs : ∀ s ∈ segs, s.wellFormed = true) :
    replaceScan ('\x7b' :: (k ++ ['\x7d'])) v 0 (renderSegments segs) =
      renderSegments (fillSegments k v segs) := by
  rw [braceFree_iff] at hk
  induction segs with
  | nil => rfl
  | cons s rest ih =>
    have hrest := ih (fun s hs' => hs s (List.mem_cons_of_mem _ hs'))
    have hwf := hs s (List.mem_cons_self _ _)
    cases s with
    | lit text =>
      simp only [Segment.wellFormed, braceFree_iff] at hwf
      rw [renderSegments_lit, fillSegments_lit, renderSegments_lit, ← hrest]
      exact replaceScan_copy _ _ _ _ hwf.1
    | hole name =>
      simp only [Segment.wellFormed, braceFree_iff] at hwf
      rw [renderSegments_hole, fillSegments_hole]
      by_cases hname : name = k
      · subst hname
        have hp : ('\x7b' :: (name ++ ['\x7d'])).isPrefixOf
            ('\x7b' :: (name ++ '\x7d' :: renderSegments rest)) = true := by
          rw [List.isPrefixOf_iff_prefix, List.cons_prefix_cons]
          exact ⟨rfl, (closed_prefix_iff _ _ _ hk.2 hk.2).2 rfl⟩
        rw [replaceScan, if_pos hp, if_pos rfl]
        have hlen : ('\x7b' :: (name ++ ['\x7d'])).length - 1 = (name ++ ['\x7d']).length := by
          simp
        rw [hlen]
        have := replaceScan_skip ('\x7b' :: (name ++ ['\x7d'])) v (name ++ ['\x7d'])
          (renderSegments rest)
        simp only [List.append_assoc, List.singleton_append] at this
        rw [this, hrest, renderSegments_lit]
      · have hp : ¬ ('\x7b' :: (k ++ ['\x7d'])).isPrefixOf
            ('\x7b' :: (name ++ '\x7d' :: renderSegments rest)) = true := by
          rw [List.isPrefixOf_iff_prefix, List.cons_prefix_cons]
          rintro ⟨_, h⟩
          exact hname ((closed_prefix_iff _ _ _ hk.2 hwf.2).1 h).symm
        rw [replaceScan, if_neg hp, if_neg hname]
        have hno : '\x7b' ∉ name ++ ['\x7d'] := by
          simp only [List.mem_append, List.mem_singleton, not_or]
          exact ⟨hwf.1, by decide⟩
        have := replaceScan_copy (k ++ ['\x7d']) v (name ++ ['\x7d']) (renderSegments rest) hno
        simp only [List.append_assoc, List.singleton_append] at this
        rw [this, hrest, renderSegments_hole]

theorem wellFormed_fillSegments (k v : List Char) (segs : List Segment)
    (hv : braceFree v = true) (hs : ∀ s ∈ segs, s.wellFormed = true) :
    ∀ s ∈ fillSegments k v segs, s.wellFormed = true := by
  induction segs with
  | nil => intro s h; cases h
  | cons a rest ih =>
    have hrest := ih (fun s h => hs s (List.mem_cons_of_mem _ h))
    have ha := hs a (List.mem_cons_self _ _)
    cases a with
    | lit text =>
      rw [fillSegments_lit]
      intro s h
      rcases List.mem_cons.1 h with rfl | h
      · exact ha
      · exact hrest s h
    | hole name =>
      rw [fillSegments_hole]
      intro s h
      rcases List.mem_cons.1 h with rfl | h
      · by_cases hn : name = k
        · rw [if_pos hn]; exact hv
        · rw [if_neg hn]; exact ha
      · exact hrest s h

/-- Filling the placeholders of a key leaves none of that key. -/
theorem hole_not_mem_fillSegments (k v : List Char) (segs : List Segment) :
    Segment.hole k ∉ fillSegments k v segs := by
  induction segs with
  | nil => intro h; cases h
  | cons a rest ih =>
    cases a with
    | lit text =>
      rw [fillSegments_lit]
      intro h
      rcases List.mem_cons.1 h with h | h
      · cases h
      · exact ih h
    | hole name =>
      rw [fillSegments_hole]
      intro h
      rcases List.mem_cons.1 h with h | h
      · by_cases hn : name = k
        · rw [if_pos hn] at h; cases h
        · rw [if_neg hn] at h; cases h; exact hn rfl
      · exact ih h

/-- Filling the placeholders of one key brings back no placeholder of another. -/
theorem hole_not_mem_fillSegments_of_not_mem (k k' v : List Char) (segs : List Segment)
    (h : Segment.hole k ∉ segs) : Segment.hole k ∉ fillSegments k' v segs := by
  induction segs with
  | nil => intro h; cases h
  | cons a rest ih =>
    rw [List.mem_cons, not_or] at h
    cases a with
    | lit text =>
      rw [fillSegments_lit]
      intro h2
      rcases List.mem_cons.1 h2 with h2 | h2
      · cases h2
      · exact ih h.2 h2
    | hole name =>
      rw [fillSegments_hole]
      intro h2
      rcases List.mem_cons.1 h2 with h2 | h2
      · by_cases hn : name = k'
        · rw [if_pos hn] at h2; cases h2
        · rw [if_neg hn] at h2; exact h.1 h2
      · exact ih h.2 h2

/-- A pattern that starts with an opening brace does not begin inside text without one. -/
theorem infix_of_infix_append (k xs rest : List Char) (h : '\x7b' ∉ xs)
    (hi : '\x7b' :: k <:+: xs ++ rest) : '\x7b' :: k <:+: rest := by
  induction xs with
  | nil => exact hi
  | cons c cs ih =>
    rw [List.mem_cons, not_or] at h
    rw [List.cons_append, List.infix_cons_iff] at hi
    rcases hi with hi | hi
    · rw [List.cons_prefix_cons] at hi
      exact absurd hi.1 h.1
    · exact ih h.2 hi

/-- A well formed text holds the placeholder of a key only where it has a placeholder
segment of that key. -/
theorem not_infix_renderSegments (k : List Char) (segs : List Segment)
    (hk : braceFree k = true) (hs : ∀ s ∈ segs, s.wellFormed = true)
    (hno : Segment.hole k ∉ segs) :
    ¬ ('\x7b' :: (k ++ ['\x7d']) <:+: renderSegments segs) := by
  rw [braceFree_iff] at hk
  induction segs with
  | nil =>
    intro h
    have := List.eq_nil_of_infix_nil h
    cases this
  | cons a rest ih =>
    rw [List.mem_cons, not_or] at hno
    have hrest := ih (fun s h => hs s (List.mem_cons_of_mem _ h)) hno.2
    have ha := hs a (List.mem_cons_self _ _)
    cases a with
    | lit text =>
      simp only [Segment.wellFormed, braceFree_iff] at ha
      rw [renderSegments_lit]
      exact fun h => hrest (infix_of_infix_append _ _ _ ha.1 h)
    | hole name =>
      simp only [Segment.wellFormed, braceFree_iff] at ha
      rw [renderSegments_hole, List.infix_cons_iff]
      rintro (h | h)
      · rw [List.cons_prefix_cons] at h
        have := (closed_prefix_iff _ _ _ hk.2 ha.2).1 h.2
        exact hno.1 (by rw [this])
      · have hno2 : '\x7b' ∉ name ++ ['\x7d'] := by
          simp only [List.mem_append, List.mem_singleton, not_or]
          exact ⟨ha.1, by decide⟩
        have h2 : '\x7b' :: (k ++ ['\x7d']) <:+: (name ++ ['\x7d']) ++ renderSegments rest := by
          simpa using h
        exact hrest (infix_of_infix_append _ _ _ hno2 h2)

theorem placeholder_data (k : String) :
    (placeholder k).data = '\x7b' :: (k.data ++ ['\x7d']) := by
  unfold placeholder
  simp [String.data_append]

/-- One pass of the loop over a well formed text. -/
theorem replaceAll_renderSegments (k v : String) (segs : List Segment)
    (hk : braceFree k.data = true) (hs : ∀ s ∈ segs, s.wellFormed = true) :
    replaceAll (String.mk (renderSegments segs)) (placeholder k) v =
      String.mk (renderSegments (fillSegments k.data v.data segs)) := by
  unfold replaceAll
  rw [placeholder_data, if_neg (by simp)]
  rw [replaceScan_renderSegments k.data v.data segs hk hs]

theorem replacePlaceholders_renderSegments (E : Env) (locale : Tag)
    (values : List (String × Value)) (segs : List Segment)
    (hs : ∀ s ∈ segs, s.wellFormed = true)
    (hv : ∀ kv ∈ values, braceFree kv.1.data = true ∧
      braceFree (toString E locale kv.2).data = true) :
    replacePlaceholders E locale values (String.mk (renderSegments segs)) =
      String.mk (renderSegments (fillAll E locale values segs)) := by
  unfold replacePlaceholders fillAll
  induction values generalizing segs with
  | nil => rfl
  | cons kv rest ih =>
    have hkv := hv kv (List.mem_cons_self _ _)
    rw [List.foldl_cons, List.foldl_cons, replaceAll_renderSegments _ _ _ hkv.1 hs]
    exact ih _ (wellFormed_fillSegments _ _ _ hkv.2 hs)
      (fun kv h => hv kv (List.mem_cons_of_mem _ h))

theorem wellFormed_fillAll (E : Env) (locale : Tag) (values : List (String × Value))
    (segs : List Segment) (hs : ∀ s ∈ segs, s.wellFormed = true)
    (hv : ∀ kv ∈ values, braceFree kv.1.data = true ∧
      braceFree (toString E locale kv.2).data = true) :
    ∀ s ∈ fillAll E locale values segs, s.wellFormed = true := by
  unfold fillAll
  induction values generalizing segs with
  | nil => exact hs
  | cons kv rest ih =>
    rw [List.foldl_cons]
    exact ih _ (wellFormed_fillSegments _ _ _ (hv kv (List.mem_cons_self _ _)).2 hs)
      (fun kv h => hv kv (List.mem_cons_of_mem _ h))

theorem hole_not_mem_fillAll_of_not_mem (E : Env) (locale : Tag) (k : List Char)
    (values : List (String × Value)) (segs : List Segment) (h : Segment.hole k ∉ segs) :
    Segment.hole k ∉ fillAll E locale values segs := by
  unfold fillAll
  induction values generalizing segs with
  | nil => exact h
  | cons kv rest ih =>
    rw [List.foldl_cons]
    exact ih _ (hole_not_mem_fillSegments_of_not_mem _ _ _ _ h)

theorem hole_not_mem_fillAll (E : Env) (locale : Tag) (values : List (String × Value))
    (segs : List Segment) (kv : String × Value) (h : kv ∈ values) :
    Segment.hole kv.1.data ∉ fillAll E locale values segs := by
  induction values generalizing segs with
  | nil => cases h
  | cons kv' rest ih =>
    rcases List.mem_cons.1 h with h | h
    · subst h
      exact hole_not_mem_fillAll_of_not_mem E locale _ rest _ (hole_not_mem_fillSegments _ _ _)
    · exact ih _ h

/-! ## Loading, option lists and order of replacement -/

theorem defaultTag_foldl_update {α : Type} (g : α → localization → localization)
    (key : String) (xs : List α) (t : translator) :
    (xs.foldl (fun t x => t.update key (g x)) t).defaultTag = t.defaultTag := by
  induction xs generalizing t with
  | nil => rfl
  | cons x xs ih => simp only [List.foldl_cons, ih, defaultTag_update]

theorem defaultTag_LoadBytes (E : Env) (t : translator) (locale : String)
    (contents : List Bytes) :
    (t.LoadBytes E locale contents).defaultTag = t.defaultTag := by
  unfold translator.LoadBytes
  rw [resolveLocale_eq]
  cases (t.catalog (if locale = "" then t.defaultLocale else locale)).isSome with
  | false => rfl
  | true => exact defaultTag_foldl_update _ _ _ _

/-- A run of `load` appends the parsed trees of the valid contents, in order. -/
theorem foldl_load (E : Env) (contents : List Bytes) (l : localization) :
    contents.foldl (fun l c => l.load E c) l =
      { l with files := l.files ++ (contents.filter E.validBytes).map E.parseBytes } := by
  induction contents generalizing l with
  | nil => simp
  | cons c rest ih =>
    rw [List.foldl_cons, ih]
    unfold localization.load
    cases h : E.validBytes c with
    | false => simp [h]
    | true => simp [h]

/-- A change in place that leaves the catalog as it is leaves the translator as it is. -/
theorem update_eq_self (t : translator) (key : String) (f : localization → localization)
    (h : ∀ l, t.catalog key = some l → f l = l) : t.update key f = t := by
  unfold translator.update
  cases hc : t.catalog key with
  | none => rfl
  | some l =>
    simp only []
    unfold translator.store
    rw [h l hc]
    have hl : t.locales key = some (some l) := by
      unfold translator.catalog at hc
      cases h1 : t.locales key with
      | none => rw [h1] at hc; cases hc
      | some o =>
        rw [h1] at hc
        cases o with
        | none => cases hc
        | some l' => cases hc; rfl
    cases t with
    | mk dl dt locales =>
      simp only [translator.mk.injEq, true_and]
      funext k
      by_cases hk : k = key
      · rw [if_pos hk, hk]; exact hl.symm
      · rw [if_neg hk]

theorem defaultTag_loadFilesLoop (E : Env) (key : String) (files : List String)
    (t : translator) : (loadFilesLoop E key files t).1.defaultTag = t.defaultTag := by
  induction files generalizing t with
  | nil => rfl
  | cons file rest ih =>
    unfold loadFilesLoop
    cases E.readFile file with
    | error err => rfl
    | ok content => simp only [ih, defaultTag_update]

/-- The loop of `LoadFiles` over readable paths loads their contents and goes on. -/
theorem loadFilesLoop_readable (E : Env) (key : String) (pre : List String)
    (contents : List Bytes) (rest : List String) (t : translator)
    (hpre : List.Forall₂ (fun file content => E.readFile file = Except.ok content) pre contents) :
    loadFilesLoop E key (pre ++ rest) t =
      loadFilesLoop E key rest
        (contents.foldl (fun t content => t.update key (fun l => l.load E content)) t) := by
  induction hpre generalizing t with
  | nil => rfl
  | @cons file content pre contents h _ ih =>
    rw [List.cons_append, loadFilesLoop, h]
    simp only [List.foldl_cons]
    exact ih _

/-- The loop of `LoadFiles` stops at an unreadable path. -/
theorem loadFilesLoop_unreadable (E : Env) (key bad err : String) (rest : List String)
    (t : translator) (h : E.readFile bad = Except.error err) :
    loadFilesLoop E key (bad :: rest) t = (t, some err) := by
  rw [loadFilesLoop, h]

theorem LoadFiles_registered (E : Env) (t : translator) (locale : String)
    (files : List String) (l : localization)
    (hl : t.catalog (if locale = "" then t.defaultLocale else locale) = some l) :
    t.LoadFiles E locale files =
      loadFilesLoop E (if locale = "" then t.defaultLocale else locale) files t := by
  unfold translator.LoadFiles
  rw [resolveLocale_eq, hl]
  rfl

theorem LoadBytes_registered (E : Env) (t : translator) (locale : String)
    (contents : List Bytes) (l : localization)
    (hl : t.catalog (if locale = "" then t.defaultLocale else locale) = some l) :
    t.LoadBytes E locale contents =
      contents.foldl (fun s content => s.update
        (if locale = "" then t.defaultLocale else locale) (fun l => l.load E content)) t := by
  unfold translator.LoadBytes
  rw [resolveLocale_eq, hl]
  rfl

theorem searchFiles_skip (E : Env) (tag : Tag) (key : String) (count : Int)
    (values : List (String × Value)) (pre rest : List Result)
    (h : ∀ g ∈ pre, (g.Get key).Exists = false) :
    searchFiles E tag key count values (pre ++ rest) =
      searchFiles E tag key count values rest := by
  induction pre with
  | nil => rfl
  | cons g pre ih =>
    have hg := h g (List.mem_cons_self _ _)
    rw [List.cons_append, searchFiles]
    simp only [hg, Bool.false_eq_true, if_false]
    exact ih (fun g' hg' => h g' (List.mem_cons_of_mem _ hg'))

theorem locales_update_ne (t : translator) (key k : String) (f : localization → localization)
    (hk : k ≠ key) : (t.update key f).locales k = t.locales k := by
  unfold translator.update translator.store
  cases t.catalog key with
  | none => rfl
  | some l => simp [hk]

theorem locales_foldl_update_ne {α : Type} (g : α → localization → localization)
    (key k : String) (hk : k ≠ key) (xs : List α) (t : translator) :
    (xs.foldl (fun t x => t.update key (g x)) t).locales k = t.locales k := by
  induction xs generalizing t with
  | nil => rfl
  | cons x xs ih => rw [List.foldl_cons, ih, locales_update_ne _ _ _ _ hk]

/-- Effect of loading a run of contents into a registered catalog. -/
theorem loads_effect (E : Env) (t : translator) (key : String) (contents : List Bytes)
    (l : localization) (hl : t.catalog key = some l) :
    (contents.foldl (fun s content => s.update key (fun l => l.load E content)) t).catalog key =
      some { l with files := l.files ++ (contents.filter E.validBytes).map E.parseBytes } ∧
    (∀ k, k ≠ key →
      (contents.foldl (fun s content => s.update key (fun l => l.load E content)) t).locales k =
        t.locales k) ∧
    (contents.foldl (fun s content => s.update key (fun l => l.load E content)) t).defaultLocale =
      t.defaultLocale ∧
    (contents.foldl (fun s content => s.update key (fun l => l.load E content)) t).defaultTag =
      t.defaultTag := by
  refine ⟨?_, fun k hk => locales_foldl_update_ne _ key k hk contents t,
    defaultLocale_foldl_update _ key contents t, defaultTag_foldl_update _ key contents t⟩
  rw [catalog_foldl_update, if_pos rfl, hl, Option.map_some', foldl_load]

theorem newMessage_append (d : String) (options : List PluralOption) (o : PluralOption) :
    newMessage d (options ++ [o]) = o.apply (newMessage d options) := by
  unfold newMessage
  rw [List.foldl_append]
  rfl

theorem lastMessage_append_some (sel : PluralOption → Option String)
    (options : List PluralOption) (o : PluralOption) (s : String) (h : sel o = some s) :
    lastMessage sel (options ++ [o]) = s := by
  unfold lastMessage
  rw [List.filterMap_append]
  simp [List.filterMap, h]

theorem lastMessage_append_none (sel : PluralOption → Option String)
    (options : List PluralOption) (o : PluralOption) (h : sel o = none) :
    lastMessage sel (options ++ [o]) = lastMessage sel options := by
  unfold lastMessage
  rw [List.filterMap_append]
  simp [List.filterMap, h]

/-- The slots of a new message, by the last option that sets each. -/
theorem newMessage_slots (d : String) (options : List PluralOption) :
    newMessage d options =
      { zero := lastMessage PluralOption.zero? options
        one := lastMessage PluralOption.one? options
        two := lastMessage PluralOption.two? options
        few := lastMessage PluralOption.few? options
        many := lastMessage PluralOption.many? options
        other := d } := by
  induction options using List.reverseRecOn with
  | nil => rfl
  | append_singleton options o ih =>
    rw [newMessage_append, ih]
    cases o with
    | PluralZero msg =>
      rw [lastMessage_append_some PluralOption.zero? options (PluralOption.PluralZero msg) msg rfl,
        lastMessage_append_none PluralOption.one? options (PluralOption.PluralZero msg) rfl,
        lastMessage_append_none PluralOption.two? options (PluralOption.PluralZero msg) rfl,
        lastMessage_append_none PluralOption.few? options (PluralOption.PluralZero msg) rfl,
        lastMessage_append_none PluralOption.many? options (PluralOption.PluralZero msg) rfl]
      rfl
    | PluralOne msg =>
      rw [lastMessage_append_none PluralOption.zero? options (PluralOption.PluralOne msg) rfl,
        lastMessage_append_some PluralOption.one? options (PluralOption.PluralOne msg) msg rfl,
        lastMessage_append_none PluralOption.two? options (PluralOption.PluralOne msg) rfl,
        lastMessage_append_none PluralOption.few? options (PluralOption.PluralOne msg) rfl,
        lastMessage_append_none PluralOption.many? options (PluralOption.PluralOne msg) rfl]
      rfl
    | PluralTwo msg =>
      rw [lastMessage_append_none PluralOption.zero? options (PluralOption.PluralTwo msg) rfl,
        lastMessage_append_none PluralOption.one? options (PluralOption.PluralTwo msg) rfl,
        lastMessage_append_some PluralOption.two? options (PluralOption.PluralTwo msg) msg rfl,
        lastMessage_append_none PluralOption.few? options (PluralOption.PluralTwo msg) rfl,
        lastMessage_append_none PluralOption.many? options (PluralOption.PluralTwo msg) rfl]
      rfl
    | PluralFew msg =>
      rw [lastMessage_append_none PluralOption.zero? options (PluralOption.PluralFew msg) rfl,
        lastMessage_append_none PluralOption.one? options (PluralOption.PluralFew msg) rfl,
        lastMessage_append_none PluralOption.two? options (PluralOption.PluralFew msg) rfl,
        lastMessage_append_some PluralOption.few? options (PluralOption.PluralFew msg) msg rfl,
        lastMessage_append_none PluralOption.many? options (PluralOption.PluralFew msg) rfl]
      rfl
    | PluralMany msg =>
      rw [lastMessage_append_none PluralOption.zero? options (PluralOption.PluralMany msg) rfl,
        lastMessage_append_none PluralOption.one? options (PluralOption.PluralMany msg) rfl,
        lastMessage_append_none PluralOption.two? options (PluralOption.PluralMany msg) rfl,
        lastMessage_append_none PluralOption.few? options (PluralOption.PluralMany msg) rfl,
        lastMessage_append_some PluralOption.many? options (PluralOption.PluralMany msg) msg rfl]
      rfl

theorem locales_of_catalog (t : translator) (key : String) (l : localization)
    (h : t.catalog key = some l) : t.locales key = some (some l) := by
  unfold translator.catalog at h
  cases h1 : t.locales key with
  | none => rw [h1] at h; cases h
  | some o =>
    rw [h1] at h
    cases o with
    | none => cases h
    | some l' => cases h; rfl

/-- A sequence of calls from `NewTranslator` gives a reachable state with the same
default locale. -/
theorem reachable_of_steps (E : Env) (locale : String) (formatter : Tag) (t : translator)
    (h : Relation.ReflTransGen (Step E) (NewTranslator locale formatter) t) :
    Reachable E t ∧ t.defaultLocale = locale := by
  induction h with
  | refl => exact ⟨Reachable.new locale formatter, rfl⟩
  | tail _ hstep ih =>
    obtain ⟨hr, hd⟩ := ih
    cases hstep with
    | addLocale key fm =>
      exact ⟨Reachable.addLocale key fm hr, by rw [defaultLocale_AddLocale, hd]⟩
    | loadBytes loc contents =>
      exact ⟨Reachable.loadBytes loc contents hr, by rw [defaultLocale_LoadBytes, hd]⟩
    | loadFiles loc files =>
      exact ⟨Reachable.loadFiles loc files hr, by rw [defaultLocale_LoadFiles, hd]⟩
    | addMessage loc key message options =>
      exact ⟨Reachable.addMessage loc key message options hr,
        by rw [defaultLocale_AddMessage, hd]⟩
    | translate _ _ _ => exact ⟨hr, hd⟩
    | plural _ _ _ _ => exact ⟨hr, hd⟩

theorem substituteAll_nil (E : Env) (locale : Tag) (segs : List Segment) :
    substituteAll E locale [] segs = segs := by
  induction segs with
  | nil => rfl
  | cons s rest ih =>
    cases s with
    | lit text => simp only [substituteAll, ih]
    | hole name => simp only [substituteAll, formattedValue, ih]

/-- Filling one key and then substituting the rest is substituting all. -/
theorem substituteAll_fillSegments (E : Env) (locale : Tag) (kv : String × Value)
    (rest : List (String × Value)) (segs : List Segment) :
    substituteAll E locale rest (fillSegments kv.1.data (toString E locale kv.2).data segs) =
      substituteAll E locale (kv :: rest) segs := by
  induction segs with
  | nil => rfl
  | cons s more ih =>
    cases s with
    | lit text => simp only [fillSegments, substituteAll, ih]
    | hole name =>
      rw [fillSegments_hole]
      by_cases h : name = kv.1.data
      · rw [if_pos h]
        simp only [substituteAll, formattedValue, ih, if_pos h.symm]
      · rw [if_neg h]
        have h' : ¬ kv.1.data = name := fun e => h e.symm
        simp only [substituteAll, formattedValue, ih, if_neg h']

/-- The loop over the values fills the text as the simultaneous substitution does. -/
theorem fillAll_eq_substituteAll (E : Env) (locale : Tag) (values : List (String × Value))
    (segs : List Segment) :
    fillAll E locale values segs = substituteAll E locale values segs := by
  induction values generalizing segs with
  | nil => exact (substituteAll_nil E locale segs).symm
  | cons kv rest ih =>
    unfold fillAll
    rw [List.foldl_cons]
    exact (ih _).trans (substituteAll_fillSegments E locale kv rest segs)

/-- With distinct keys, the value found for a name does not depend on the order of the
entries. -/
theorem formattedValue_perm (E : Env) (locale : Tag) (name : List Char)
    {values values' : List (String × Value)} (hp : values.Perm values')
    (hnd : (values.map Prod.fst).Nodup) :
    formattedValue E locale values name = formattedValue E locale values' name := by
  induction hp with
  | nil => rfl
  | cons x _ ih =>
    rw [List.map_cons, List.nodup_cons] at hnd
    simp only [formattedValue, ih hnd.2]
  | swap x y l =>
    simp only [List.map_cons, List.nodup_cons, List.mem_cons, not_or] at hnd
    simp only [formattedValue]
    by_cases hx : x.1.data = name
    · by_cases hy : y.1.data = name
      · exact absurd (String.ext (hy.trans hx.symm)) hnd.1.1
      · rw [if_neg hy, if_pos hx, if_pos hx]
    · by_cases hy : y.1.data = name
      · rw [if_pos hy, if_neg hx, if_pos hy]
      · rw [if_neg hy, if_neg hx, if_neg hx, if_neg hy]
  | trans h1 _ ih1 ih2 =>
    exact (ih1 hnd).trans (ih2 ((h1.map Prod.fst).nodup_iff.1 hnd))

theorem substituteAll_perm (E : Env) (locale : Tag) (segs : List Segment)
    {values values' : List (String × Value)} (hp : values.Perm values')
    (hnd : (values.map Prod.fst).Nodup) :
    substituteAll E locale values segs = substituteAll E locale values' segs := by
  induction segs with
  | nil => rfl
  | cons s rest ih =>
    cases s with
    | lit text => simp only [substituteAll, ih]
    | hole name => simp only [substituteAll, ih, formattedValue_perm E locale name hp hnd]

theorem formattedValue_of_mem (E : Env) (locale : Tag)
    (values : List (String × Value)) (hnd : (values.map Prod.fst).Nodup)
    (kv : String × Value) (h : kv ∈ values) :
    formattedValue E locale values kv.1.data = some (toString E locale kv.2).data := by
  induction values with
  | nil => cases h
  | cons x rest ih =>
    rw [List.map_cons, List.nodup_cons] at hnd
    rcases List.mem_cons.1 h with h | h
    · subst h
      simp only [formattedValue, if_true]
    · have hne : ¬ x.1.data = kv.1.data := by
        intro e
        exact hnd.1 (by rw [String.ext e]; exact List.mem_map_of_mem Prod.fst h)
      simp only [formattedValue, if_neg hne]
      exact ih hnd.2 h

theorem formattedValue_of_not_key (E : Env) (locale : Tag)
    (values : List (String × Value)) (name : List Char)
    (h : ∀ kv ∈ values, kv.1.data ≠ name) : formattedValue E locale values name = none := by
  induction values with
  | nil => rfl
  | cons x rest ih =>
    simp only [formattedValue, if_neg (h x (List.mem_cons_self _ _))]
    exact ih (fun kv hkv => h kv (List.mem_cons_of_mem _ hkv))

theorem replaceAll_empty (k v : String) : replaceAll "" (placeholder k) v = "" := by
  unfold replaceAll
  rw [placeholder_data, if_neg (by simp)]
  rfl

theorem replacePlaceholders_empty (E : Env) (locale : Tag) (values : List (String × Value)) :
    replacePlaceholders E locale values "" = "" := by
  unfold replacePlaceholders
  induction values with
  | nil => rfl
  | cons kv rest ih => rw [List.foldl_cons, replaceAll_empty, ih]

/-- The method `translate` of a message is the loop on the resolved text. -/
theorem translate_eq_replacePlaceholders (E : Env) (m : pluralMessage) (locale : Tag)
    (count : Int) (values : List (String × Value)) :
    m.translate E locale count values =
      replacePlaceholders E locale values (m.resolve count) := by
  unfold pluralMessage.translate
  by_cases h : m.resolve count = ""
  · simp only [h, if_true, replacePlaceholders_empty]
  · simp only [if_neg h]

/-- The function `translateJson` is the loop on the text it returns for no values. -/
theorem translateJson_eq_replacePlaceholders (E : Env) (locale : Tag) (json : Result)
    (count : Int) (values : List (String × Value)) :
    translateJson E locale json count values =
      replacePlaceholders E locale values (translateJson E locale json count []) := rfl

/-! ## The assertions of `TestTranslator` -/

theorem test_Simple :
    testTranslator.Translate sampleEnv "" "welcome" [("name", Value.str "John doe")] =
      some "Hello John doe, Welcome!" := rfl

theorem test_Plural_fa :
    testTranslator.Plural sampleEnv "fa" "notification" 0 [("name", Value.str "John doe")] =
      some "پیام جدیدی ندارید" := rfl

theorem test_Plural_ar :
    testTranslator.Plural sampleEnv "ar" "notification" 10 [("count", Value.int 10)] =
      some "You have 10 new messages" := rfl

/-! ## Claims -/

/-- C1: in a reachable state, `Plural(L, K, c, V)` uses the catalog of `L'`, the default
locale when `L` is empty or not registered and `L` otherwise; it returns that catalog's
result when it is not empty or `L'` is the default locale, and the result of the default
catalog otherwise. -/
theorem Plural_one_hop_fallback (E : Env) (t : translator) (h : Reachable E t)
    (L K : String) (c : Int) (V : List (String × Value)) :
    ∃ l d,
      t.catalog (if L = "" ∨ (t.catalog L).isNone then t.defaultLocale else L) = some l ∧
      t.catalog t.defaultLocale = some d ∧
      t.Plural E L K c V =
        some (if l.translate E K c V ≠ "" ∨
            (if L = "" ∨ (t.catalog L).isNone then t.defaultLocale else L) = t.defaultLocale
          then l.translate E K c V else d.translate E K c V) := by
  obtain ⟨d, hd⟩ := h.default_registered
  obtain ⟨l, hl⟩ := used_locale_registered t L d hd
  refine ⟨l, d, hl, hd, ?_⟩
  rw [Plural_eq E t L K c V l d hd hl]
  by_cases h1 : l.translate E K c V = ""
  · by_cases h2 : (if L = "" ∨ (t.catalog L).isNone then t.defaultLocale else L) =
        t.defaultLocale
    · rw [if_neg (fun x => x.2 h2), if_pos (Or.inr h2)]
    · rw [if_pos ⟨h1, h2⟩, if_neg (fun x => x.elim (fun y => y h1) h2)]
  · rw [if_neg (fun x => h1 x.1), if_pos (Or.inl h1)]

/-- C1 on the translator of the test: `ar` is not registered, so the default catalog
answers. -/
theorem Plural_one_hop_fallback_witness :
    Reachable sampleEnv testTranslator ∧
    testTranslator.Plural sampleEnv "ar" "notification" 10 [("count", Value.int 10)] =
      some "You have 10 new messages" ∧
    ∃ l d,
      testTranslator.catalog (if "ar" = "" ∨ (testTranslator.catalog "ar").isNone
        then testTranslator.defaultLocale else "ar") = some l ∧
      testTranslator.catalog testTranslator.defaultLocale = some d ∧
      testTranslator.Plural sampleEnv "ar" "notification" 10 [("count", Value.int 10)] =
        some (if l.translate sampleEnv "notification" 10 [("count", Value.int 10)] ≠ "" ∨
            (if "ar" = "" ∨ (testTranslator.catalog "ar").isNone
              then testTranslator.defaultLocale else "ar") = testTranslator.defaultLocale
          then l.translate sampleEnv "notification" 10 [("count", Value.int 10)]
          else d.translate sampleEnv "notification" 10 [("count", Value.int 10)]) :=
  ⟨testTranslator_reachable, rfl,
   Plural_one_hop_fallback sampleEnv testTranslator testTranslator_reachable "ar"
     "notification" 10 [("count", Value.int 10)]⟩

/-- C2: `resolve` returns the slot `zero` for count 0, `one` for 1, `two` for 2, `few` for
3 to 10, `many` above 10 and `other` below 0, whatever the slot holds (an empty slot is
returned as the empty string); so -1, 0, 1, 2, 3, 10 and 11 select `other`, `zero`,
`one`, `two`, `few`, `few` and `many`. -/
theorem resolve_selects_slot (m : pluralMessage) (count : Int) :
    (count = 0 → m.resolve count = m.zero) ∧
    (count = 1 → m.resolve count = m.one) ∧
    (count = 2 → m.resolve count = m.two) ∧
    (3 ≤ count ∧ count ≤ 10 → m.resolve count = m.few) ∧
    (count > 10 → m.resolve count = m.many) ∧
    (count < 0 → m.resolve count = m.other) ∧
    m.resolve (-1) = m.other ∧ m.resolve 0 = m.zero ∧ m.resolve 1 = m.one ∧
    m.resolve 2 = m.two ∧ m.resolve 3 = m.few ∧ m.resolve 10 = m.few ∧
    m.resolve 11 = m.many := by
  refine ⟨?_, ?_, ?_, ?_, ?_, resolve_of_neg m count, rfl, rfl, rfl, rfl, rfl, rfl, rfl⟩
  · intro h; subst h; rfl
  · intro h; subst h; rfl
  · intro h; subst h; rfl
  · intro h
    unfold pluralMessage.resolve
    rw [if_neg (by omega), if_neg (by omega), if_neg (by omega), if_pos (by omega)]
  · intro h
    unfold pluralMessage.resolve
    rw [if_neg (by omega), if_neg (by omega), if_neg (by omega), if_neg (by omega),
      if_pos h]

/-- C2 at a message with only `other` and `few` set: the counts 0 and 11 select the empty
slots `zero` and `many` and get the empty string, the count 7 gets `few`. -/
theorem resolve_selects_slot_witness :
    ({ other := "items", few := "a few" } : pluralMessage).resolve 0 = "" ∧
    ({ other := "items", few := "a few" } : pluralMessage).resolve 7 = "a few" ∧
    ({ other := "items", few := "a few" } : pluralMessage).resolve 11 = "" ∧
    ({ other := "items", few := "a few" } : pluralMessage).resolve (-5) = "items" :=
  ⟨(resolve_selects_slot _ 0).1 rfl,
   (resolve_selects_slot _ 7).2.2.2.1 (by decide),
   (resolve_selects_slot _ 11).2.2.2.2.1 (by decide),
   (resolve_selects_slot _ (-5)).2.2.2.2.2.1 (by decide)⟩

/-- C3 fails as stated: `fa` is registered and holds the custom message `Hi` for
`welcome`, whose translation for count 0 is empty (no `zero` form); `fa` is not the
default locale, so `Plural` answers with the document text of the default catalog. -/
theorem custom_message_exact_counterexample :
    Reachable sampleEnv shadowTranslator ∧
    (shadowTranslator.catalog "fa").map (fun l => (l.tag, l.messages "welcome")) =
      some (persian, some { other := "Hi" }) ∧
    ({ other := "Hi" } : pluralMessage).translate sampleEnv persian 0 [] = "" ∧
    shadowTranslator.Plural sampleEnv "fa" "welcome" 0 [] = some "Hello {name}, Welcome!" ∧
    shadowTranslator.Plural sampleEnv "fa" "welcome" 0 [] ≠
      some (({ other := "Hi" } : pluralMessage).translate sampleEnv persian 0 []) :=
  ⟨shadowTranslator_reachable, rfl, rfl, rfl, by decide⟩

/-- C3, amended: in a reachable state, for a registered locale `L` whose catalog holds the
custom message `M` for `K`, `Translate` and `Plural` return exactly the translation of
`M` when it is not empty or `L` is the default locale; when it is empty and `L` is not
the default locale they return the result of the default catalog for `K`. -/
theorem custom_message_shadows (E : Env) (t : translator) (h : Reachable E t)
    (L K : String) (l : localization) (M : pluralMessage) (c : Int)
    (V : List (String × Value)) (hl : t.catalog L = some l) (hM : l.messages K = some M) :
    ∃ d, t.catalog t.defaultLocale = some d ∧
      (M.translate E l.tag (-1) V ≠ "" ∨ L = t.defaultLocale →
        t.Translate E L K V = some (M.translate E l.tag (-1) V)) ∧
      (M.translate E l.tag (-1) V = "" ∧ L ≠ t.defaultLocale →
        t.Translate E L K V = some (d.translate E K (-1) V)) ∧
      (M.translate E l.tag c V ≠ "" ∨ L = t.defaultLocale →
        t.Plural E L K c V = some (M.translate E l.tag c V)) ∧
      (M.translate E l.tag c V = "" ∧ L ≠ t.defaultLocale →
        t.Plural E L K c V = some (d.translate E K c V)) := by
  obtain ⟨d, hd⟩ := h.default_registered
  have key : (if L = "" ∨ (t.catalog L).isNone then t.defaultLocale else L) = L := by
    by_cases hL : L = ""
    · by_cases hD : t.defaultLocale = ""
      · simp [hL, hD]
      · have := h.empty_key_messages hD l (hL ▸ hl) K
        rw [hM] at this
        cases this
    · simp [hL, hl]
  have hl2 : t.catalog (if L = "" ∨ (t.catalog L).isNone then t.defaultLocale else L) =
      some l := by rw [key, hl]
  have hP : ∀ c : Int, t.Plural E L K c V =
      some (if M.translate E l.tag c V = "" ∧ L ≠ t.defaultLocale
        then d.translate E K c V else M.translate E l.tag c V) := by
    intro c
    rw [Plural_eq E t L K c V l d hd hl2, key, translate_custom E l K M c V hM]
  have hT : t.Translate E L K V =
      some (if M.translate E l.tag (-1) V = "" ∧ L ≠ t.defaultLocale
        then d.translate E K (-1) V else M.translate E l.tag (-1) V) := by
    rw [Translate_eq E t L K V l d hd hl2, key, translate_custom E l K M (-1) V hM]
  refine ⟨d, hd, ?_, ?_, ?_, ?_⟩
  · intro hc
    rw [hT, if_neg (fun x => hc.elim (fun y => y x.1) (fun y => x.2 y))]
  · intro hc
    rw [hT, if_pos hc]
  · intro hc
    rw [hP, if_neg (fun x => hc.elim (fun y => y x.1) (fun y => x.2 y))]
  · intro hc
    rw [hP, if_pos hc]

/-- C3 amended, on the translator of the test with the custom message `Hi` for `welcome`
in `fa`: `Translate` returns `Hi`; `Plural` with count 0 finds the translation of the
message empty and returns the text of the default catalog. -/
theorem custom_message_shadows_witness :
    shadowTranslator.Translate sampleEnv "fa" "welcome" [] = some "Hi" ∧
    shadowTranslator.Plural sampleEnv "fa" "welcome" 0 [] = some "Hello {name}, Welcome!" ∧
    ∃ d, shadowTranslator.catalog shadowTranslator.defaultLocale = some d ∧
      (({ other := "Hi" } : pluralMessage).translate sampleEnv shadowCatalog.tag (-1) [] ≠ "" ∨
          "fa" = shadowTranslator.defaultLocale →
        shadowTranslator.Translate sampleEnv "fa" "welcome" [] =
          some (({ other := "Hi" } : pluralMessage).translate sampleEnv
            shadowCatalog.tag (-1) [])) ∧
      (({ other := "Hi" } : pluralMessage).translate sampleEnv shadowCatalog.tag (-1) [] = "" ∧
          "fa" ≠ shadowTranslator.defaultLocale →
        shadowTranslator.Translate sampleEnv "fa" "welcome" [] =
          some (d.translate sampleEnv "welcome" (-1) [])) ∧
      (({ other := "Hi" } : pluralMessage).translate sampleEnv shadowCatalog.tag 0 [] ≠ "" ∨
          "fa" = shadowTranslator.defaultLocale →
        shadowTranslator.Plural sampleEnv "fa" "welcome" 0 [] =
          some (({ other := "Hi" } : pluralMessage).translate sampleEnv
            shadowCatalog.tag 0 [])) ∧
      (({ other := "Hi" } : pluralMessage).translate sampleEnv shadowCatalog.tag 0 [] = "" ∧
          "fa" ≠ shadowTranslator.defaultLocale →
        shadowTranslator.Plural sampleEnv "fa" "welcome" 0 [] =
          some (d.translate sampleEnv "welcome" 0 [])) :=
  ⟨rfl, rfl,
   custom_message_shadows sampleEnv shadowTranslator shadowTranslator_reachable "fa"
     "welcome" shadowCatalog { other := "Hi" } 0 [] rfl rfl⟩

/-- C4 fails at a negative count: on a node with all six forms, the count -1 that
`Translate` passes selects the text of `many`, where `resolve` on a message with the same
six forms selects `other`; the counts from 0 on agree. -/
theorem translateJson_negative_count_reads_many :
    translateJson sampleEnv english ⟨some sixForms⟩ (-1) [] = "M" ∧
    ({ zero := "Z", one := "O", two := "T", few := "F", many := "M", other := "X" } :
      pluralMessage).resolve (-1) = "X" ∧
    translateJson sampleEnv english ⟨some sixForms⟩ 0 [] = "Z" ∧
    translateJson sampleEnv english ⟨some sixForms⟩ 10 [] = "F" ∧
    translateJson sampleEnv english ⟨some sixForms⟩ 11 [] = "M" ∧
    formsTranslator.Translate sampleEnv "en" "items" [] = some "M" :=
  ⟨rfl, rfl, rfl, rfl, rfl, rfl⟩

/-- C5 fails at a negative count on a node that has `many`: by the count policy of
`resolve` the count -1 selects `other`; the node `manyOnly` has no `other`, and as an
object it has the empty string value, so the claim gives the empty text; the `switch` of
`translateJson` reads `many` instead and returns its text, also through a catalog that
holds the node under `k`. The two examples of the claim hold. -/
theorem translateJson_fallback_negative_count_reads_many :
    translateJson sampleEnv english ⟨some manyOnly⟩ (-1) [] = "M" ∧
    ((Result.mk (some manyOnly)).Get "other").Exists = false ∧
    (Result.mk (some manyOnly)).Str = "" ∧
    ({ many := "M" } : pluralMessage).resolve (-1) = ({ many := "M" } : pluralMessage).other ∧
    ({ tag := english, files := [⟨some (Json.object [("k", manyOnly)])⟩],
       messages := fun _ => none } : localization).translate sampleEnv "k" (-1) [] = "M" ∧
    translateJson sampleEnv english welcomeNode (-1) [("name", Value.str "John doe")] =
      "Hello John doe, Welcome!" ∧
    translateJson sampleEnv english notificationNode 10 [("count", Value.int 10)] =
      "You have 10 new messages" :=
  ⟨rfl, rfl, rfl, rfl, rfl, rfl, rfl⟩

/-- C6: when the key is in the custom messages of a catalog, `translate` returns the
result of that message, whatever the document list is, so also when that result is
empty and a loaded document has the key. -/
theorem translate_prefers_custom_message (E : Env) (l : localization) (key : String)
    (M : pluralMessage) (count : Int) (values : List (String × Value))
    (h : l.messages key = some M) (files : List Result) :
    ({ l with files := files }).translate E key count values =
        M.translate E l.tag count values ∧
      l.translate E key count values = M.translate E l.tag count values :=
  ⟨translate_custom E { l with files := files } key M count values h,
   translate_custom E l key M count values h⟩

/-- C6 on a catalog whose document has `welcome` and whose custom message for `welcome`
has no `zero` form: the count 0 gives the empty string, not the text of the document. -/
theorem translate_prefers_custom_message_witness :
    ({ tag := english, files := [⟨some enDocument⟩],
       messages := fun k => if k = "welcome" then some { other := "Hi" } else none } :
      localization).translate sampleEnv "welcome" 0 [] = "" :=
  (translate_prefers_custom_message sampleEnv
    { tag := english, files := [],
      messages := fun k => if k = "welcome" then some { other := "Hi" } else none }
    "welcome" { other := "Hi" } 0 [] rfl [⟨some enDocument⟩]).1

/-- C7: `Translate(locale, key, values)` equals `Plural(locale, key, -1, values)` in every
translator state. -/
theorem Translate_eq_Plural_minus_one (E : Env) (t : translator) (locale key : String)
    (values : List (String × Value)) :
    t.Translate E locale key values = t.Plural E locale key (-1) values := by
  unfold translator.Translate translator.Plural
  rfl

/-- C8 fails as stated: with the value `{a}` for the key `a`, the translation of the text
`{a}` is `{a}` again; with the empty value for `a`, the text `{{a}a}` becomes `{a}`; and
with the value `x` for the key `a}x{b`, the text `{a}{a}x{b}{b}` becomes `{a}x{b}`. Each
result contains the placeholder of a key of the values map. -/
theorem translate_replaces_every_key_counterexample :
    ({ other := "{a}" } : pluralMessage).resolve (-1) ≠ "" ∧
    ({ other := "{a}" } : pluralMessage).translate sampleEnv english (-1)
      [("a", Value.str "{a}")] = "{a}" ∧
    (placeholder "a").data <:+:
      (({ other := "{a}" } : pluralMessage).translate sampleEnv english (-1)
        [("a", Value.str "{a}")]).data ∧
    ({ other := "\x7b\x7ba\x7da\x7d" } : pluralMessage).translate sampleEnv english (-1)
      [("a", Value.str "")] = "{a}" ∧
    (placeholder "a").data <:+:
      (({ other := "\x7b\x7ba\x7da\x7d" } : pluralMessage).translate sampleEnv english (-1)
        [("a", Value.str "")]).data ∧
    ({ other := "{a}{a}x{b}{b}" } : pluralMessage).translate sampleEnv english (-1)
      [("a\x7dx\x7bb", Value.str "x")] = "{a}x{b}" ∧
    (placeholder "a\x7dx\x7bb").data <:+:
      (({ other := "{a}{a}x{b}{b}" } : pluralMessage).translate sampleEnv english (-1)
        [("a\x7dx\x7bb", Value.str "x")]).data :=
  ⟨by decide, rfl, ⟨[], [], rfl⟩, rfl, ⟨[], [], rfl⟩, rfl, ⟨[], [], rfl⟩⟩

/-- C8, amended: when the resolved text is a concatenation of literal segments without
braces and of placeholders whose names have no braces, and the keys and the formatted
values of the values map have no braces, the string that `translate` returns contains
the placeholder of no key of the values map. -/
theorem translate_replaces_every_key (E : Env) (m : pluralMessage) (locale : Tag)
    (count : Int) (values : List (String × Value)) (segs : List Segment)
    (htext : m.resolve count = String.mk (renderSegments segs))
    (hs : ∀ s ∈ segs, s.wellFormed = true)
    (hv : ∀ kv ∈ values, braceFree kv.1.data = true ∧
      braceFree (toString E locale kv.2).data = true)
    (kv : String × Value) (hkv : kv ∈ values) :
    ¬ ((placeholder kv.1).data <:+: (m.translate E locale count values).data) := by
  unfold pluralMessage.translate
  rw [placeholder_data]
  by_cases h0 : m.resolve count = ""
  · simp only [h0, if_true]
    intro h
    have := List.eq_nil_of_infix_nil h
    cases this
  · simp only [if_neg h0]
    rw [htext, replacePlaceholders_renderSegments E locale values segs hs hv]
    exact not_infix_renderSegments _ _ (hv kv hkv).1 (wellFormed_fillAll E locale values segs hs hv)
      (hole_not_mem_fillAll E locale values segs kv hkv)

/-- C8 amended, on a text with the placeholders `name`, `count` and `sender` and values
for `name` and `count`: the result has no `{count}` left (and keeps `{sender}`). -/
theorem translate_replaces_every_key_witness :
    ({ other := "Hello {name}, {count} new messages from {sender}" } :
      pluralMessage).translate sampleEnv english (-1)
        [("name", Value.str "John doe"), ("count", Value.int 10)] =
      "Hello John doe, 10 new messages from {sender}" ∧
    ¬ ((placeholder "count").data <:+:
      (({ other := "Hello {name}, {count} new messages from {sender}" } :
        pluralMessage).translate sampleEnv english (-1)
          [("name", Value.str "John doe"), ("count", Value.int 10)]).data) :=
  ⟨rfl,
   translate_replaces_every_key sampleEnv
     { other := "Hello {name}, {count} new messages from {sender}" } english (-1)
     [("name", Value.str "John doe"), ("count", Value.int 10)] inboxText (by decide) (by decide)
     (by decide) ("count", Value.int 10) (by simp)⟩

/-- C9: in a reachable state, for a locale `L` that is registered or empty and a text
whose trimmed form is not empty, `Translate(L, K, V)` with no values returns the trimmed
text after `AddMessage(L, K, text, options...)`, whatever was registered under `K`
before and whatever the options are. -/
theorem AddMessage_then_Translate (E : Env) (t : translator) (h : Reachable E t)
    (L K text : String) (options : List PluralOption)
    (hL : L = "" ∨ ∃ l, t.catalog L = some l) (ht : trimSpace text ≠ "") :
    (t.AddMessage L K text options).Translate E L K [] = some (trimSpace text) := by
  obtain ⟨d, hd⟩ := h.default_registered
  obtain ⟨d2, hd2⟩ := (Reachable.addMessage L K text options h).default_registered
  have hreg : ∃ l, t.catalog (if L = "" then t.defaultLocale else L) = some l := by
    by_cases h0 : L = ""
    · rw [if_pos h0]; exact ⟨d, hd⟩
    · rw [if_neg h0]; exact hL.resolve_left h0
  obtain ⟨l, hl⟩ := hreg
  have hcat : (t.AddMessage L K text options).catalog (if L = "" then t.defaultLocale else L) =
      some (l.addMessage K (newMessage (trimSpace text) options)) := by
    rw [catalog_AddMessage, if_pos ⟨rfl, ht⟩, hl]
    rfl
  have hkey : (if L = "" ∨ ((t.AddMessage L K text options).catalog L).isNone
      then (t.AddMessage L K text options).defaultLocale else L) =
      (if L = "" then t.defaultLocale else L) := by
    rw [defaultLocale_AddMessage]
    by_cases h0 : L = ""
    · simp [h0]
    · have := hcat
      rw [if_neg h0] at this
      simp [h0, this]
  have hres : (l.addMessage K (newMessage (trimSpace text) options)).translate E K (-1) [] =
      trimSpace text := by
    rw [translate_custom E _ K _ (-1) [] (messages_addMessage_self l K _)]
    unfold pluralMessage.translate
    simp only [resolve_of_neg _ (-1) (by decide), newMessage_other]
    rw [if_neg ht]
    rfl
  rw [Translate_eq E _ L K [] _ d2 hd2 (by rw [hkey]; exact hcat), hres,
    if_neg (fun x => ht x.1)]

/-- C9 on the translator of the test: a message for `welcome` in `fa`, given with white
space around it and a `zero` form, then a second one under the same key. -/
theorem AddMessage_then_Translate_witness :
    (testTranslator.AddMessage "fa" "welcome" "  Hi there\n"
      [PluralOption.PluralZero "none"]).Translate sampleEnv "fa" "welcome" [] =
        some "Hi there" ∧
    (shadowTranslator.AddMessage "fa" "welcome" " Salam "
      []).Translate sampleEnv "fa" "welcome" [] = some (trimSpace " Salam ") :=
  ⟨AddMessage_then_Translate sampleEnv testTranslator testTranslator_reachable "fa"
     "welcome" "  Hi there\n" [PluralOption.PluralZero "none"] (Or.inr ⟨_, rfl⟩)
     (by decide),
   AddMessage_then_Translate sampleEnv shadowTranslator shadowTranslator_reachable "fa"
     "welcome" " Salam " [] (Or.inr ⟨_, rfl⟩) (by decide)⟩

/-- C10: in a reachable state, after `AddMessage` on the default locale with a text whose
trimmed form is not empty and with no plural option, `Plural` on the default locale
returns the empty string for every count from 0 on and every values map: the empty
slot that the count selects is the result, neither `other` nor a document is used. -/
theorem Plural_after_plain_AddMessage (E : Env) (t : translator) (h : Reachable E t)
    (L₁ L₂ K text : String) (c : Int) (V : List (String × Value))
    (h₁ : L₁ = "" ∨ L₁ = t.defaultLocale) (h₂ : L₂ = "" ∨ L₂ = t.defaultLocale)
    (ht : trimSpace text ≠ "") (hc : 0 ≤ c) :
    (t.AddMessage L₁ K text []).Plural E L₂ K c V = some "" := by
  obtain ⟨d, hd⟩ := h.default_registered
  have k₁ : (if L₁ = "" then t.defaultLocale else L₁) = t.defaultLocale := by
    by_cases h0 : L₁ = ""
    · rw [if_pos h0]
    · rw [if_neg h0]; exact h₁.resolve_left h0
  have hcat : (t.AddMessage L₁ K text []).catalog t.defaultLocale =
      some (d.addMessage K (newMessage (trimSpace text) [])) := by
    rw [catalog_AddMessage, k₁, if_pos ⟨rfl, ht⟩, hd]
    rfl
  have k₂ : (if L₂ = "" ∨ ((t.AddMessage L₁ K text []).catalog L₂).isNone
      then (t.AddMessage L₁ K text []).defaultLocale else L₂) =
      (t.AddMessage L₁ K text []).defaultLocale := by
    rw [defaultLocale_AddMessage]
    by_cases h0 : L₂ = ""
    · simp [h0]
    · rw [h₂.resolve_left h0]; simp
  have hD : (t.AddMessage L₁ K text []).catalog (t.AddMessage L₁ K text []).defaultLocale =
      some (d.addMessage K (newMessage (trimSpace text) [])) := by
    rw [defaultLocale_AddMessage]; exact hcat
  have hres : (d.addMessage K (newMessage (trimSpace text) [])).translate E K c V = "" := by
    rw [translate_custom E _ K _ c V (messages_addMessage_self d K _)]
    unfold pluralMessage.translate pluralMessage.resolve newMessage
    simp only [List.foldl_nil]
    by_cases c0 : c = 0
    · simp [c0]
    by_cases c1 : c = 1
    · simp [c1]
    by_cases c2 : c = 2
    · simp [c2]
    by_cases c3 : c > 2 ∧ c ≤ 10
    · simp [c0, c1, c2, c3]
    · have c4 : c > 10 := by omega
      simp [c0, c1, c2, c3, c4]
  rw [Plural_eq E _ L₂ K c V _ _ hD (by rw [k₂]; exact hD), hres,
    if_neg (fun x => x.2 k₂)]

/-- C10 on the translator of the test, whose default catalog has a document text for
`welcome`: after `AddMessage("en", "welcome", "Hi")` the count 3 gives the empty string. -/
theorem Plural_after_plain_AddMessage_witness :
    (testTranslator.AddMessage "en" "welcome" "Hi" []).Plural sampleEnv "" "welcome" 3
      [("name", Value.str "John doe")] = some "" :=
  Plural_after_plain_AddMessage sampleEnv testTranslator testTranslator_reachable "en" ""
    "welcome" "Hi" 3 [("name", Value.str "John doe")] (Or.inr rfl) (Or.inl rfl) (by decide)
    (by decide)

/-- C11: `AddMessage` returns the translator it was given, with every catalog and the
default locale as they were, when the trimmed text is empty or the resolved locale is
not registered, whatever the options are. -/
theorem AddMessage_noop (t : translator) (locale key text : String)
    (options : List PluralOption)
    (h : trimSpace text = "" ∨
      t.catalog (if locale = "" then t.defaultLocale else locale) = none) :
    t.AddMessage locale key text options = t := by
  unfold translator.AddMessage
  rw [resolveLocale_eq]
  simp only []
  rcases h with h | h
  · rw [if_pos (Or.inr h)]
  · rw [if_pos (Or.inl (by rw [h]; rfl))]

/-- C11 on the translator of the test: a text of white space only, and a locale that is
not registered, with options. -/
theorem AddMessage_noop_witness :
    testTranslator.AddMessage "fa" "welcome" " \t\n" [PluralOption.PluralZero "none"] =
      testTranslator ∧
    testTranslator.AddMessage "ar" "welcome" "Hi" [PluralOption.PluralOne "one"] =
      testTranslator :=
  ⟨AddMessage_noop testTranslator "fa" "welcome" " \t\n" [PluralOption.PluralZero "none"]
     (Or.inl (by decide)),
   AddMessage_noop testTranslator "ar" "welcome" "Hi" [PluralOption.PluralOne "one"]
     (Or.inr rfl)⟩

/-- C12: after `AddLocale(key, tag)` the catalog of `key` has no document and no custom
message and carries the tag given, or the default tag when none is given, whatever the
catalog of `key` was; the entries of all other keys, the default locale and the default
tag are as before. -/
theorem AddLocale_fresh_catalog (t : translator) (key : String) (formatter : Option Tag) :
    (∃ l, (t.AddLocale key formatter).catalog key = some l ∧ l.files = [] ∧
      (∀ k, l.messages k = none) ∧ l.tag = formatter.getD t.defaultTag) ∧
    (∀ k, k ≠ key → (t.AddLocale key formatter).locales k = t.locales k) ∧
    (t.AddLocale key formatter).defaultLocale = t.defaultLocale ∧
    (t.AddLocale key formatter).defaultTag = t.defaultTag := by
  refine ⟨⟨newLocalization (formatter.getD t.defaultTag), ?_, rfl, fun _ => rfl, rfl⟩, ?_, ?_, ?_⟩
  · rw [catalog_AddLocale, if_pos rfl]
  · intro k hk
    unfold translator.AddLocale
    cases formatter <;> simp [translator.store, hk]
  · exact defaultLocale_AddLocale t key formatter
  · unfold translator.AddLocale
    cases formatter <;> rfl

/-- C12 on the translator of the test: `AddLocale("fa", nil)` drops the Persian document
and gives `fa` the default tag; the catalog of `en` keeps its document. -/
theorem AddLocale_fresh_catalog_witness :
    ((testTranslator.catalog "fa").map (fun l => l.files.length)) = some 1 ∧
    ((testTranslator.AddLocale "fa" none).catalog "fa").map
      (fun l => (l.files.length, l.tag)) = some (0, english) ∧
    ((testTranslator.AddLocale "fa" none).catalog "en").map (fun l => l.files.length) =
      some 1 ∧
    (∃ l, (testTranslator.AddLocale "fa" none).catalog "fa" = some l ∧ l.files = [] ∧
      (∀ k, l.messages k = none) ∧ l.tag = (none : Option Tag).getD testTranslator.defaultTag) :=
  ⟨rfl, rfl, rfl, (AddLocale_fresh_catalog testTranslator "fa" none).1⟩

/-- C13: for a registered locale (the empty string standing for the default locale),
`LoadBytes` appends to the document list of its catalog the parsed trees of the valid
contents, in argument order, and nothing for a content that is not valid; the custom
messages and the tag of the catalog, the entries of the other locales, the default
locale and the default tag stay; a call with one content that is not valid changes
nothing at all. -/
theorem LoadBytes_appends_valid (E : Env) (t : translator) (L : String)
    (contents : List Bytes) (l : localization)
    (hl : t.catalog (if L = "" then t.defaultLocale else L) = some l) :
    (t.LoadBytes E L contents).catalog (if L = "" then t.defaultLocale else L) =
      some { l with files := l.files ++ (contents.filter E.validBytes).map E.parseBytes } ∧
    (∀ k, k ≠ (if L = "" then t.defaultLocale else L) →
      (t.LoadBytes E L contents).locales k = t.locales k) ∧
    (t.LoadBytes E L contents).defaultLocale = t.defaultLocale ∧
    (t.LoadBytes E L contents).defaultTag = t.defaultTag ∧
    (∀ c, E.validBytes c = false → t.LoadBytes E L [c] = t) := by
  rw [LoadBytes_registered E t L contents l hl]
  obtain ⟨h1, h2, h3, h4⟩ := loads_effect E t _ contents l hl
  refine ⟨h1, h2, h3, h4, ?_⟩
  intro c hc
  rw [LoadBytes_registered E t L [c] l hl]
  simp only [List.foldl_cons, List.foldl_nil]
  apply update_eq_self
  intro l' _
  unfold localization.load
  rw [hc]
  rfl

/-- C13 on a translator with the locales `en` and `fa`: loading a content that is not
valid, then the English document, then another content that is not valid into the
default locale appends one document. -/
theorem LoadBytes_appends_valid_witness :
    (((NewTranslator "en" english).AddLocale "fa" (some persian)).LoadBytes sampleEnv ""
      ["not json", "en", ""]).catalog "en" =
      some { newLocalization english with files := [] ++ [⟨some enDocument⟩] } ∧
    ((NewTranslator "en" english).AddLocale "fa" (some persian)).LoadBytes sampleEnv ""
      ["not json"] = (NewTranslator "en" english).AddLocale "fa" (some persian) :=
  ⟨(LoadBytes_appends_valid sampleEnv ((NewTranslator "en" english).AddLocale "fa"
      (some persian)) "" ["not json", "en", ""] (newLocalization english) rfl).1,
   (LoadBytes_appends_valid sampleEnv ((NewTranslator "en" english).AddLocale "fa"
      (some persian)) "" [] (newLocalization english) rfl).2.2.2.2 "not json" rfl⟩

/-- C14: for a registered locale, when the paths `pre` are readable with the contents
`contents`: if the next path is unreadable, `LoadFiles` returns its read error and
leaves the state that loading `pre` alone gives, whatever paths follow and whatever
they hold; the catalog then holds the old documents followed by the parsed trees of
the valid ones among `contents`, and nothing else changes. If `pre` is the whole list,
`LoadFiles` returns no error and the same state. -/
theorem LoadFiles_stops_at_first_error (E : Env) (t : translator) (L : String)
    (pre : List String) (contents : List Bytes) (l : localization)
    (hl : t.catalog (if L = "" then t.defaultLocale else L) = some l)
    (hpre : List.Forall₂ (fun file content => E.readFile file = Except.ok content)
      pre contents) :
    (t.LoadFiles E L pre).2 = none ∧
    (t.LoadFiles E L pre).1.catalog (if L = "" then t.defaultLocale else L) =
      some { l with files := l.files ++ (contents.filter E.validBytes).map E.parseBytes } ∧
    (∀ k, k ≠ (if L = "" then t.defaultLocale else L) →
      (t.LoadFiles E L pre).1.locales k = t.locales k) ∧
    (t.LoadFiles E L pre).1.defaultLocale = t.defaultLocale ∧
    (t.LoadFiles E L pre).1.defaultTag = t.defaultTag ∧
    (∀ bad err rest, E.readFile bad = Except.error err →
      (t.LoadFiles E L (pre ++ bad :: rest)).2 = some err ∧
      (t.LoadFiles E L (pre ++ bad :: rest)).1 = (t.LoadFiles E L pre).1) := by
  have hall : t.LoadFiles E L pre =
      (contents.foldl (fun s content => s.update (if L = "" then t.defaultLocale else L)
        (fun l => l.load E content)) t, none) := by
    rw [LoadFiles_registered E t L pre l hl]
    have := loadFilesLoop_readable E (if L = "" then t.defaultLocale else L) pre contents [] t
      hpre
    rw [List.append_nil] at this
    rw [this]
    rfl
  obtain ⟨h1, h2, h3, h4⟩ := loads_effect E t _ contents l hl
  rw [hall]
  refine ⟨rfl, h1, h2, h3, h4, ?_⟩
  intro bad err rest hbad
  rw [LoadFiles_registered E t L _ l hl,
    loadFilesLoop_readable E _ pre contents (bad :: rest) t hpre,
    loadFilesLoop_unreadable E _ bad err rest _ hbad]
  exact ⟨rfl, rfl⟩

/-- C14 on the translator of the test, where only `en.json` can be read: loading
`en.json`, `missing.json`, `en.json` into `fa` returns the error of `missing.json` and
leaves `fa` with two documents, the Persian one and the English one loaded before the
error. -/
theorem LoadFiles_stops_at_first_error_witness :
    (testTranslator.LoadFiles sampleEnv "fa" ["en.json", "missing.json", "en.json"]).2 =
      some "open missing.json: no such file or directory" ∧
    ((testTranslator.LoadFiles sampleEnv "fa"
      ["en.json", "missing.json", "en.json"]).1.catalog "fa").map (fun l => l.files.length) =
      some 2 ∧
    (testTranslator.LoadFiles sampleEnv "fa" ["en.json", "missing.json", "en.json"]).1 =
      (testTranslator.LoadFiles sampleEnv "fa" ["en.json"]).1 :=
  ⟨rfl, rfl,
   ((LoadFiles_stops_at_first_error sampleEnv testTranslator "fa" ["en.json"] ["en"]
      ((newLocalization persian).load sampleEnv "fa") rfl
      (List.Forall₂.cons rfl List.Forall₂.nil)).2.2.2.2.2 "missing.json"
      "open missing.json: no such file or directory" ["en.json"] rfl).2⟩

/-- C15: for a locale key that is not empty and not registered, `LoadBytes` returns the
translator it was given, and `LoadFiles` returns it with no error, in every file
system, so also when no path of the list can be read. -/
theorem Load_unregistered_noop (E : Env) (t : translator) (locale : String)
    (contents : List Bytes) (files : List String) (h0 : locale ≠ "")
    (hreg : t.catalog locale = none) :
    t.LoadBytes E locale contents = t ∧ t.LoadFiles E locale files = (t, none) := by
  unfold translator.LoadBytes translator.LoadFiles
  rw [resolveLocale_eq, if_neg h0, hreg]
  exact ⟨rfl, rfl⟩

/-- C15 on the translator of the test: `ar` is not registered and `missing.json` is
unreadable. -/
theorem Load_unregistered_noop_witness :
    testTranslator.LoadBytes sampleEnv "ar" ["en"] = testTranslator ∧
    testTranslator.LoadFiles sampleEnv "ar" ["missing.json", "en.json"] =
      (testTranslator, none) :=
  Load_unregistered_noop sampleEnv testTranslator "ar" ["en"] ["missing.json", "en.json"]
    (by decide) rfl

/-- C16: for a catalog with no custom message for the key, `translate` is
`translateJson` on the node of the key in the first document, in load order, in which
the key has a node, whatever the later documents hold and whatever `translateJson`
returns; it is the empty string when the key has a node in no document. -/
theorem translate_first_document (E : Env) (l : localization) (K : String) (count : Int)
    (V : List (String × Value)) (hM : l.messages K = none) :
    (∀ pre f post, l.files = pre ++ f :: post →
      (∀ g ∈ pre, (g.Get K).Exists = false) → (f.Get K).Exists = true →
      l.translate E K count V = translateJson E l.tag (f.Get K) count V) ∧
    ((∀ g ∈ l.files, (g.Get K).Exists = false) → l.translate E K count V = "") := by
  unfold localization.translate
  rw [hM]
  simp only []
  constructor
  · intro pre f post hfiles hpre hf
    rw [hfiles, searchFiles_skip E l.tag K count V pre (f :: post) hpre, searchFiles]
    simp only [hf, if_true]
  · intro h
    have := searchFiles_skip E l.tag K count V l.files [] h
    rw [List.append_nil] at this
    rw [this]
    rfl

/-- C16 on three documents: the first holds a number for `k`, so the result for `k` is
empty although the third holds a text; the second is the first with `j`; no document
has `x`. -/
theorem translate_first_document_witness :
    ({ tag := english, files := twoDocuments, messages := fun _ => none } :
      localization).translate sampleEnv "k" (-1) [] = "" ∧
    ({ tag := english, files := twoDocuments, messages := fun _ => none } :
      localization).translate sampleEnv "j" (-1) [] = "other key" ∧
    ({ tag := english, files := twoDocuments, messages := fun _ => none } :
      localization).translate sampleEnv "x" (-1) [] = "" :=
  ⟨((translate_first_document sampleEnv
      { tag := english, files := twoDocuments, messages := fun _ => none } "k" (-1) []
      rfl).1 [] _ _ rfl (by decide) (by decide)).trans (by decide),
   ((translate_first_document sampleEnv
      { tag := english, files := twoDocuments, messages := fun _ => none } "j" (-1) []
      rfl).1 [_] _ _ rfl (by decide) (by decide)).trans (by decide),
   (translate_first_document sampleEnv
      { tag := english, files := twoDocuments, messages := fun _ => none } "x" (-1) []
      rfl).2 (by decide)⟩

/-- C17: `newMessage(d, options...)` has `other` equal to `d`, and each of `zero`, `one`,
`two`, `few`, `many` equal to the message of the last option of the list that sets that
slot, the empty string when none does; an option sets its own slot and leaves the other
five, and running it twice is running it once. -/
theorem newMessage_last_option_wins (d : String) (options : List PluralOption) :
    (newMessage d options).other = d ∧
    (newMessage d options).zero = lastMessage PluralOption.zero? options ∧
    (newMessage d options).one = lastMessage PluralOption.one? options ∧
    (newMessage d options).two = lastMessage PluralOption.two? options ∧
    (newMessage d options).few = lastMessage PluralOption.few? options ∧
    (newMessage d options).many = lastMessage PluralOption.many? options ∧
    (∀ (msg : String) (m : pluralMessage),
      (PluralOption.PluralZero msg).apply m = { m with zero := msg } ∧
      (PluralOption.PluralOne msg).apply m = { m with one := msg } ∧
      (PluralOption.PluralTwo msg).apply m = { m with two := msg } ∧
      (PluralOption.PluralFew msg).apply m = { m with few := msg } ∧
      (PluralOption.PluralMany msg).apply m = { m with many := msg }) ∧
    (∀ (o : PluralOption) (m : pluralMessage), o.apply (o.apply m) = o.apply m) := by
  rw [newMessage_slots d options]
  refine ⟨rfl, rfl, rfl, rfl, rfl, rfl, fun _ _ => ⟨rfl, rfl, rfl, rfl, rfl⟩, ?_⟩
  intro o m
  cases o <;> rfl

/-- C17 on a list that sets `one` twice and `few` once. -/
theorem newMessage_last_option_wins_witness :
    newMessage "items" [PluralOption.PluralOne "first", PluralOption.PluralFew "some",
      PluralOption.PluralOne "second"] =
      { one := "second", few := "some", other := "items" } ∧
    (newMessage "items" [PluralOption.PluralOne "first", PluralOption.PluralFew "some",
      PluralOption.PluralOne "second"]).one =
      lastMessage PluralOption.one? [PluralOption.PluralOne "first",
        PluralOption.PluralFew "some", PluralOption.PluralOne "second"] :=
  ⟨by decide,
   (newMessage_last_option_wins "items" [PluralOption.PluralOne "first",
      PluralOption.PluralFew "some", PluralOption.PluralOne "second"]).2.2.1⟩

/-- C18 fails for the nil interface value: `toString` gives it to `%v`, which prints
`<nil>`, so the placeholder is replaced by `<nil>` and not by the empty string. -/
theorem toString_nil_counterexample :
    toString sampleEnv english Value.null = "<nil>" ∧
    toString sampleEnv english Value.null ≠ "" ∧
    ({ other := "Hi {name}!" } : pluralMessage).translate sampleEnv english (-1)
      [("name", Value.null)] = "Hi <nil>!" :=
  ⟨rfl, by decide, rfl⟩

/-- C18, amended: for every locale tag, `toString` of a nil pointer is the empty string,
so a placeholder whose value is a nil pointer is replaced by the empty string;
`toString` of a string is that string, whatever the tag; the nil interface value is
printed by `%v` as `<nil>`. -/
theorem toString_nil_pointer_and_string (E : Env) (l : Tag) :
    toString E l (Value.ptr none) = "" ∧
    (∀ (k text : String),
      replacePlaceholders E l [(k, Value.ptr none)] text = replaceAll text (placeholder k) "") ∧
    (∀ (s : String) (l' : Tag), toString E l (Value.str s) = s ∧
      toString E l' (Value.str s) = toString E l (Value.str s)) ∧
    toString E l Value.null = "<nil>" :=
  ⟨rfl, fun _ _ => rfl, fun _ _ => ⟨rfl, rfl⟩, rfl⟩

/-- C18 amended, on a text with one placeholder. -/
theorem toString_nil_pointer_and_string_witness :
    ({ other := "Hi {name}!" } : pluralMessage).translate sampleEnv persian (-1)
      [("name", Value.ptr none)] = "Hi !" ∧
    ({ other := "Hi {name}!" } : pluralMessage).translate sampleEnv persian (-1)
      [("name", Value.str "John doe")] = "Hi John doe!" ∧
    toString sampleEnv persian (Value.ptr none) = "" :=
  ⟨rfl, rfl, (toString_nil_pointer_and_string sampleEnv persian).1⟩

/-- C19: in every state that a sequence of `AddLocale`, `LoadBytes`, `LoadFiles`,
`AddMessage`, `Translate` and `Plural` calls reaches from `NewTranslator(locale, tag)`,
the default locale is still `locale` and its entry in `locales` is a catalog, not nil;
so the locale resolution of `Translate` and `Plural` never takes the branch that
returns the empty string for an unresolved default, and both methods return without
dereferencing a nil catalog. -/
theorem default_locale_invariant (E : Env) (locale : String) (formatter : Tag)
    (t : translator)
    (h : Relation.ReflTransGen (Step E) (NewTranslator locale formatter) t) :
    t.defaultLocale = locale ∧
    (∃ d, t.locales locale = some (some d)) ∧
    (∀ L, ∃ key l, t.lookupKey L = some key ∧ t.catalog key = some l) ∧
    (∀ L K c V, ∃ s, t.Plural E L K c V = some s) ∧
    (∀ L K V, ∃ s, t.Translate E L K V = some s) := by
  obtain ⟨hr, hd⟩ := reachable_of_steps E locale formatter t h
  obtain ⟨d, hcat⟩ := hr.default_registered
  refine ⟨hd, ⟨d, ?_⟩, ?_, ?_, ?_⟩
  · rw [← hd]; exact locales_of_catalog t _ d hcat
  · intro L
    obtain ⟨l, hl⟩ := used_locale_registered t L d hcat
    exact ⟨_, l, lookupKey_eq t L d hcat, hl⟩
  · intro L K c V
    obtain ⟨l, hl⟩ := used_locale_registered t L d hcat
    exact ⟨_, Plural_eq E t L K c V l d hcat hl⟩
  · intro L K V
    obtain ⟨l, hl⟩ := used_locale_registered t L d hcat
    exact ⟨_, Translate_eq E t L K V l d hcat hl⟩

/-- C19 on a run that replaces the default catalog and then loads into it. -/
theorem default_locale_invariant_witness :
    (((NewTranslator "en" english).AddLocale "en" (some persian)).LoadBytes sampleEnv ""
      ["en"]).defaultLocale = "en" ∧
    (((NewTranslator "en" english).AddLocale "en" (some persian)).LoadBytes sampleEnv ""
      ["en"]).Plural sampleEnv "ar" "missing" 3 [] = some "" ∧
    ∃ d, (((NewTranslator "en" english).AddLocale "en" (some persian)).LoadBytes sampleEnv ""
      ["en"]).locales "en" = some (some d) :=
  ⟨rfl, rfl,
   (default_locale_invariant sampleEnv "en" english _
     (Relation.ReflTransGen.tail
       (Relation.ReflTransGen.tail Relation.ReflTransGen.refl
         (Step.addLocale _ "en" (some persian)))
       (Step.loadBytes _ "" ["en"]))).2.1⟩

/-- C20: for a text made of literal segments without braces and placeholders whose
names have no braces, and a values map whose keys and formatted values have no braces,
the replacement loop of `pluralMessage.translate` and of `translateJson` returns, for
every order `values'` in which the map is visited, the simultaneous substitution: the
text in which every placeholder named by a key holds the formatted value of that key
and every other placeholder stands as it was. -/
theorem replacement_order_independent (E : Env) (locale : Tag)
    (values values' : List (String × Value)) (segs : List Segment)
    (hs : ∀ s ∈ segs, s.wellFormed = true)
    (hv : ∀ kv ∈ values, braceFree kv.1.data = true ∧
      braceFree (toString E locale kv.2).data = true)
    (hnd : (values.map Prod.fst).Nodup) (hp : values'.Perm values) :
    (∀ (m : pluralMessage) (count : Int),
      m.resolve count = String.mk (renderSegments segs) →
      m.translate E locale count values' =
        String.mk (renderSegments (substituteAll E locale values segs))) ∧
    (∀ (json : Result) (count : Int),
      translateJson E locale json count [] = String.mk (renderSegments segs) →
      translateJson E locale json count values' =
        String.mk (renderSegments (substituteAll E locale values segs))) ∧
    (∀ kv ∈ values,
      formattedValue E locale values kv.1.data = some (toString E locale kv.2).data) ∧
    (∀ name, (∀ kv ∈ values, kv.1.data ≠ name) →
      formattedValue E locale values name = none) := by
  have hv' : ∀ kv ∈ values', braceFree kv.1.data = true ∧
      braceFree (toString E locale kv.2).data = true :=
    fun kv h => hv kv (hp.mem_iff.1 h)
  have core : replacePlaceholders E locale values' (String.mk (renderSegments segs)) =
      String.mk (renderSegments (substituteAll E locale values segs)) := by
    rw [replacePlaceholders_renderSegments E locale values' segs hs hv',
      fillAll_eq_substituteAll, substituteAll_perm E locale segs hp.symm hnd]
  refine ⟨?_, ?_, formattedValue_of_mem E locale values hnd,
    formattedValue_of_not_key E locale values⟩
  · intro m count htext
    rw [translate_eq_replacePlaceholders, htext, core]
  · intro json count htext
    rw [translateJson_eq_replacePlaceholders, htext, core]

/-- C20 on a text with the placeholders `name`, `count` and `sender` and a map with the
keys `name` and `count`, visited in both orders. -/
theorem replacement_order_independent_witness :
    ({ other := "Hello {name}, {count} new messages from {sender}" } :
      pluralMessage).translate sampleEnv english (-1)
        [("count", Value.int 10), ("name", Value.str "John doe")] =
      String.mk (renderSegments (substituteAll sampleEnv english
        [("name", Value.str "John doe"), ("count", Value.int 10)] inboxText)) ∧
    String.mk (renderSegments (substituteAll sampleEnv english
        [("name", Value.str "John doe"), ("count", Value.int 10)] inboxText)) =
      "Hello John doe, 10 new messages from {sender}" :=
  ⟨(replacement_order_independent sampleEnv english
      [("name", Value.str "John doe"), ("count", Value.int 10)]
      [("count", Value.int 10), ("name", Value.str "John doe")] inboxText (by decide)
      (by decide) (by decide) (List.Perm.swap _ _ _)).1
      { other := "Hello {name}, {count} new messages from {sender}" } (-1) (by decide),
   by decide⟩

end I18n
